import Mathlib

/-!
Verification of the SenseEdge ML training pipeline (`ml/train_senseedge.py`).

The Python source is embedded shallowly: numpy `float64` arithmetic is
modelled by exact rational arithmetic (`ℚ`), numpy arrays by `List ℚ` /
`List (List ℚ)`, machine integers by `ℤ`/`Nat`, and fallible code by
`Except`/`Option`.  External library calls that the repository does not
implement (scipy `.mat` parsing, `np.fft.rfft`+`np.abs`, the Mersenne
Twister bit stream behind `np.random.RandomState`, `np.exp`) are modelled
as explicit parameters or as concrete deterministic streams exposing only
the interface properties the pipeline relies on.
-/

namespace SenseEdge

/-! ### numpy rounding: `np.round` rounds half to even -/

/-- Model of `np.round` on a scalar: round half to even (banker's rounding),
returning an integer. -/
def npRound (x : ℚ) : ℤ :=
  if x - (⌊x⌋ : ℚ) < 1/2 then ⌊x⌋
  else if 1/2 < x - (⌊x⌋ : ℚ) then ⌊x⌋ + 1
  else if ⌊x⌋ % 2 = 0 then ⌊x⌋ else ⌊x⌋ + 1

theorem npRound_frac_nonneg (x : ℚ) : 0 ≤ x - (⌊x⌋ : ℚ) :=
  sub_nonneg.mpr (Int.floor_le x)

theorem npRound_frac_lt_one (x : ℚ) : x - (⌊x⌋ : ℚ) < 1 := by
  have := Int.lt_floor_add_one x
  linarith

/-- `np.round` never moves a value by more than 1/2. -/
theorem abs_npRound_sub_le (x : ℚ) : |x - (npRound x : ℚ)| ≤ 1/2 := by
  have h0 := npRound_frac_nonneg x
  have h1 := npRound_frac_lt_one x
  unfold npRound
  split
  · rename_i h; rw [abs_le]; constructor <;> linarith
  · rename_i h
    have hge := le_of_not_lt h
    split
    · rename_i h2; rw [abs_le]; push_cast; constructor <;> linarith
    · rename_i h2
      have hle := le_of_not_lt h2
      split <;> (rw [abs_le]; push_cast; constructor <;> linarith)

/-- `np.round` of a value in an integer interval stays in the interval. -/
theorem npRound_mem_Icc (x : ℚ) (a b : ℤ) (ha : (a : ℚ) ≤ x) (hb : x ≤ (b : ℚ)) :
    a ≤ npRound x ∧ npRound x ≤ b := by
  have hfa : a ≤ ⌊x⌋ := Int.le_floor.mpr ha
  have hfx : (⌊x⌋ : ℚ) ≤ x := Int.floor_le x
  have hfb : ⌊x⌋ ≤ b := by
    have : ⌊x⌋ ≤ ⌊(b : ℚ)⌋ := Int.floor_le_floor hb
    simpa using this
  have hsucc : x - (⌊x⌋ : ℚ) > 0 → ⌊x⌋ + 1 ≤ b := by
    intro hpos
    have hlt : (⌊x⌋ : ℚ) < (b : ℚ) := by linarith
    exact_mod_cast Int.add_one_le_of_lt (by exact_mod_cast hlt)
  unfold npRound
  split
  · exact ⟨hfa, hfb⟩
  · rename_i h
    have hge := le_of_not_lt h
    split
    · exact ⟨le_trans hfa (by omega), hsucc (by linarith)⟩
    · split
      · exact ⟨hfa, hfb⟩
      · exact ⟨le_trans hfa (by omega), hsucc (by linarith)⟩

/-! ### `quantize_int8` -/

/-- `np.max(np.abs(weights))` over a flattened tensor (0 for the empty tensor;
real tensors are nonempty and all entries have nonnegative absolute value, so
the 0 seed is inert). -/
def maxAbs (w : List ℚ) : ℚ := (w.map (fun v => |v|)).foldr max 0

/-- `np.clip(q, -128, 127)` on a single integer. -/
def clip8 (q : ℤ) : ℤ := max (-128) (min 127 q)

/-- Model of `quantize_int8` (train_senseedge.py lines 312-324): symmetric
per-tensor INT8 quantization.  Returns the quantized entries and the scale. -/
def quantize_int8 (w : List ℚ) : List ℤ × ℚ :=
  let w_max := maxAbs w
  if w_max = 0 then (w.map (fun _ => 0), 1)
  else
    let scale := 127 / w_max
    (w.map (fun v => clip8 (npRound (v * scale))), scale)

theorem maxAbs_nonneg (w : List ℚ) : 0 ≤ maxAbs w := by
  induction w with
  | nil => simp [maxAbs]
  | cons a t ih =>
    simp only [maxAbs, List.map_cons, List.foldr_cons]
    exact le_trans ih (le_max_right _ _)

theorem le_maxAbs (w : List ℚ) (v : ℚ) (hv : v ∈ w) : |v| ≤ maxAbs w := by
  induction w with
  | nil => cases hv
  | cons a t ih =>
    simp only [maxAbs, List.map_cons, List.foldr_cons]
    rcases List.mem_cons.mp hv with h | h
    · subst h; exact le_max_left _ _
    · exact le_trans (ih h) (le_max_right _ _)

theorem getD_map_of_lt {α β : Type} (f : α → β) (l : List α) (i : Nat)
    (hi : i < l.length) (d : β) (d' : α) : (l.map f).getD i d = f (l.getD i d') := by
  rw [List.getD_eq_getElem _ _ (by simpa using hi), List.getD_eq_getElem _ _ hi,
    List.getElem_map]

theorem maxAbs_pos (w : List ℚ) (h : maxAbs w ≠ 0) : 0 < maxAbs w :=
  lt_of_le_of_ne (maxAbs_nonneg w) (Ne.symm h)

/-- In the zero-tensor branch the quantizer returns all zeros and scale 1. -/
theorem quantize_zero_case (w : List ℚ) (h : maxAbs w = 0) :
    quantize_int8 w = (w.map (fun _ => 0), 1) := by
  simp [quantize_int8, h]

/-- In the generic branch the quantizer rounds and clips each entry. -/
theorem quantize_pos_case (w : List ℚ) (h : maxAbs w ≠ 0) :
    quantize_int8 w = (w.map (fun v => clip8 (npRound (v * (127 / maxAbs w)))), 127 / maxAbs w) := by
  simp [quantize_int8, h]

/-- Each pre-clip rounded entry already lies in `[-127, 127]`, so `clip8` is
the identity on it. -/
theorem quantize_entry_bounds (w : List ℚ) (h : maxAbs w ≠ 0) (v : ℚ) (hv : v ∈ w) :
    -127 ≤ npRound (v * (127 / maxAbs w)) ∧ npRound (v * (127 / maxAbs w)) ≤ 127 := by
  have hpos : 0 < maxAbs w := maxAbs_pos w h
  have hva : |v| ≤ maxAbs w := le_maxAbs w v hv
  have habs : |v * (127 / maxAbs w)| ≤ 127 := by
    rw [abs_mul, abs_of_pos (by positivity : (0:ℚ) < 127 / maxAbs w)]
    calc |v| * (127 / maxAbs w) ≤ maxAbs w * (127 / maxAbs w) := by
          apply mul_le_mul_of_nonneg_right hva (by positivity)
      _ = 127 := by field_simp
  have := npRound_mem_Icc (v * (127 / maxAbs w)) (-127) 127
    (by rw [abs_le] at habs; exact_mod_cast habs.1)
    (by rw [abs_le] at habs; exact_mod_cast habs.2)
  exact_mod_cast this

theorem clip8_of_bounds (q : ℤ) (h1 : -127 ≤ q) (h2 : q ≤ 127) : clip8 q = q := by
  unfold clip8; omega

/-- Claim C4: for every input tensor, `quantize_int8` returns
scale `127 / max |tensor|` (scale 1 and an all-zero output for the all-zero
tensor), every output entry is `round(value * scale)` clipped to
`[-128, 127]` and never leaves that range, and the round-trip error obeys
`|original - quantized/scale| ≤ 1/scale` at every index. -/
theorem quantize_int8_correct (w : List ℚ) (i : Nat) (hi : i < w.length) :
    (maxAbs w = 0 → (quantize_int8 w).2 = 1 ∧ (quantize_int8 w).1.getD i 0 = 0) ∧
    (maxAbs w ≠ 0 → (quantize_int8 w).2 = 127 / maxAbs w ∧
      (quantize_int8 w).1.getD i 0 = clip8 (npRound (w.getD i 0 * (quantize_int8 w).2))) ∧
    (-128 ≤ (quantize_int8 w).1.getD i 0 ∧ (quantize_int8 w).1.getD i 0 ≤ 127) ∧
    |w.getD i 0 - ((quantize_int8 w).1.getD i 0 : ℚ) / (quantize_int8 w).2| ≤
      1 / (quantize_int8 w).2 := by
  by_cases h : maxAbs w = 0
  · rw [quantize_zero_case w h]
    have hz : (w.map (fun _ => (0:ℤ))).getD i 0 = 0 := getD_map_of_lt _ w i hi 0 0
    have hv0 : w.getD i 0 = 0 := by
      have hmem : w.getD i 0 ∈ w := by
        rw [List.getD_eq_getElem _ _ hi]; exact List.getElem_mem hi
      have := le_maxAbs w _ hmem
      rw [h] at this
      exact abs_eq_zero.mp (le_antisymm this (abs_nonneg _))
    refine ⟨fun _ => ⟨rfl, hz⟩, fun hc => absurd h hc, ?_, ?_⟩
    · rw [hz]; constructor <;> norm_num
    · rw [hz, hv0]; norm_num
  · rw [quantize_pos_case w h]
    have hpos : 0 < maxAbs w := maxAbs_pos w h
    have hspos : 0 < 127 / maxAbs w := by positivity
    set s := 127 / maxAbs w with hs
    set v := w.getD i 0 with hvdef
    have hmem : v ∈ w := by
      rw [hvdef, List.getD_eq_getElem _ _ hi]; exact List.getElem_mem hi
    have hq : ((w.map (fun v => clip8 (npRound (v * s)))).getD i 0) =
        clip8 (npRound (v * s)) := getD_map_of_lt _ w i hi 0 0
    have hb := quantize_entry_bounds w h v hmem
    rw [← hs] at hb
    have hcl : clip8 (npRound (v * s)) = npRound (v * s) :=
      clip8_of_bounds _ hb.1 hb.2
    refine ⟨fun hc => absurd hc h, fun _ => ⟨rfl, hq⟩, ?_, ?_⟩
    · rw [hq, hcl]; omega
    · rw [hq, hcl]
      have habs := abs_npRound_sub_le (v * s)
      have heq : v - (npRound (v * s) : ℚ) / s = (v * s - (npRound (v * s) : ℚ)) / s := by
        field_simp
      rw [heq, abs_div, abs_of_pos hspos]
      calc |v * s - (npRound (v * s) : ℚ)| / s ≤ (1/2) / s :=
            div_le_div_of_nonneg_right habs hspos.le
        _ ≤ 1 / s := div_le_div_of_nonneg_right (by norm_num) hspos.le

/-- Claim C4 witness at the concrete tensor `[3, -1]`, index 0. -/
theorem quantize_int8_correct_witness :
    0 < ([(3:ℚ), -1].length) ∧
    ((maxAbs [(3:ℚ), -1] = 0 →
        (quantize_int8 [(3:ℚ), -1]).2 = 1 ∧ (quantize_int8 [(3:ℚ), -1]).1.getD 0 0 = 0) ∧
     (maxAbs [(3:ℚ), -1] ≠ 0 → (quantize_int8 [(3:ℚ), -1]).2 = 127 / maxAbs [(3:ℚ), -1] ∧
        (quantize_int8 [(3:ℚ), -1]).1.getD 0 0 =
          clip8 (npRound ([(3:ℚ), -1].getD 0 0 * (quantize_int8 [(3:ℚ), -1]).2))) ∧
     (-128 ≤ (quantize_int8 [(3:ℚ), -1]).1.getD 0 0 ∧
        (quantize_int8 [(3:ℚ), -1]).1.getD 0 0 ≤ 127) ∧
     |[(3:ℚ), -1].getD 0 0 - ((quantize_int8 [(3:ℚ), -1]).1.getD 0 0 : ℚ) /
        (quantize_int8 [(3:ℚ), -1]).2| ≤ 1 / (quantize_int8 [(3:ℚ), -1]).2) :=
  ⟨by decide, quantize_int8_correct [(3:ℚ), -1] 0 (by decide)⟩

/-- Claim C10: the quantized output never contains -128: every entry lies in
`[-127, 127]`, because each pre-clip value `round(value*scale)` already lies
in `[-127, 127]`, so the clip to `[-128, 127]` is never active. -/
theorem quantize_int8_no_neg128 (w : List ℚ) (i : Nat) (hi : i < w.length) :
    -127 ≤ (quantize_int8 w).1.getD i 0 ∧ (quantize_int8 w).1.getD i 0 ≤ 127 := by
  by_cases h : maxAbs w = 0
  · rw [quantize_zero_case w h]
    rw [getD_map_of_lt _ w i hi 0 0]
    norm_num
  · rw [quantize_pos_case w h]
    have hmem : w.getD i 0 ∈ w := by
      rw [List.getD_eq_getElem _ _ hi]; exact List.getElem_mem hi
    rw [getD_map_of_lt _ w i hi 0 0]
    have hb := quantize_entry_bounds w h _ hmem
    rw [clip8_of_bounds _ hb.1 hb.2]
    exact hb

/-- Claim C10 witness at the concrete tensor `[3, -1]`, index 1. -/
theorem quantize_int8_no_neg128_witness :
    1 < ([(3:ℚ), -1].length) ∧
    (-127 ≤ (quantize_int8 [(3:ℚ), -1]).1.getD 1 0 ∧
      (quantize_int8 [(3:ℚ), -1]).1.getD 1 0 ≤ 127) :=
  ⟨by decide, quantize_int8_no_neg128 [(3:ℚ), -1] 1 (by decide)⟩

/-! ### `save_weights` (the serializer) -/

/-- The fatal assertion in `save_weights` (`assert len(all_weights) == 212`),
named `SerializationSizeMismatch` in the design document. -/
inductive SaveError
  | serializationSizeMismatch (got : Nat)
deriving DecidableEq

/-- The persisted `.npz` container: four named tensors, the canonical flat
sequence, and the four scale factors. -/
structure Artifact where
  layer1_weights : List (List ℤ)
  layer1_biases : List ℤ
  layer2_weights : List (List ℤ)
  layer2_biases : List ℤ
  all_weights : List ℤ
  scales : List ℚ
deriving DecidableEq

/-- `np.concatenate([W1_q.flatten(), b1_q.flatten(), W2_q.flatten(), b2_q.flatten()])`:
row-major flattening of each block, concatenated in the documented order. -/
def flatWeights (W1q : List (List ℤ)) (b1q : List ℤ) (W2q : List (List ℤ))
    (b2q : List ℤ) : List ℤ :=
  W1q.flatten ++ b1q ++ W2q.flatten ++ b2q

/-- Model of `save_weights` (train_senseedge.py lines 424-457): build the flat
212-entry sequence, assert its length, persist the container. -/
def save_weights (W1q : List (List ℤ)) (b1q : List ℤ) (W2q : List (List ℤ))
    (b2q : List ℤ) (scales : List ℚ) : Except SaveError Artifact :=
  if (flatWeights W1q b1q W2q b2q).length = 212 then
    .ok ⟨W1q, b1q, W2q, b2q, flatWeights W1q b1q W2q b2q, scales⟩
  else
    .error (.serializationSizeMismatch (flatWeights W1q b1q W2q b2q).length)

/-- A list-of-rows tensor has shape `(r, c)`. -/
def hasShape (m : List (List ℤ)) (r c : Nat) : Prop :=
  m.length = r ∧ ∀ row ∈ m, row.length = c

instance (m : List (List ℤ)) (r c : Nat) : Decidable (hasShape m r c) := by
  unfold hasShape; infer_instance

theorem join_length_of_rows (m : List (List ℤ)) (c : Nat)
    (hc : ∀ row ∈ m, row.length = c) : m.flatten.length = m.length * c := by
  induction m with
  | nil => simp
  | cons a t ih =>
    have ha := hc a (List.mem_cons_self a t)
    have ht : ∀ row ∈ t, row.length = c := fun row hrow => hc row (List.mem_cons_of_mem a hrow)
    simp only [List.flatten_cons, List.length_append, List.length_cons, ha, ih ht]
    ring

set_option maxRecDepth 4000 in
/-- Claim C3 counterexample: swapping W1's shape to (8,16) keeps the flattened
total at 212, so `save_weights` succeeds even though the shape combination is
not the documented one — the claim that every other shape combination raises
`SerializationSizeMismatch` is false. -/
theorem save_weights_counterexample :
    (save_weights (List.replicate 8 (List.replicate 16 (0:ℤ))) (List.replicate 16 (0:ℤ))
        (List.replicate 4 (List.replicate 16 (0:ℤ))) (List.replicate 4 (0:ℤ))
        [1, 1, 1, 1]).isOk = true ∧
    ¬ hasShape (List.replicate 8 (List.replicate 16 (0:ℤ))) 16 8 := by
  constructor
  · decide
  · decide

/-- Claim C3 (amended): `save_weights` succeeds exactly when the flattened
total is 212 entries (so a wrong-shape combination totaling 212 is accepted);
on failure it raises `SerializationSizeMismatch`; and on the documented shapes
(16,8), (16,), (4,16), (4,) it yields exactly the 212 entries in block order
W1 row-major (128), b1 (16), W2 row-major (64), b2 (4). -/
theorem save_weights_spec (W1q : List (List ℤ)) (b1q : List ℤ) (W2q : List (List ℤ))
    (b2q : List ℤ) (scales : List ℚ) :
    ((save_weights W1q b1q W2q b2q scales).isOk = true ↔
      (flatWeights W1q b1q W2q b2q).length = 212) ∧
    ((flatWeights W1q b1q W2q b2q).length ≠ 212 →
      save_weights W1q b1q W2q b2q scales =
        .error (.serializationSizeMismatch (flatWeights W1q b1q W2q b2q).length)) ∧
    (hasShape W1q 16 8 → b1q.length = 16 → hasShape W2q 4 16 → b2q.length = 4 →
      W1q.flatten.length = 128 ∧ W2q.flatten.length = 64 ∧
      (flatWeights W1q b1q W2q b2q).length = 212 ∧
      save_weights W1q b1q W2q b2q scales =
        .ok ⟨W1q, b1q, W2q, b2q, flatWeights W1q b1q W2q b2q, scales⟩) := by
  refine ⟨?_, ?_, ?_⟩
  · unfold save_weights
    split
    · rename_i h; simp [Except.isOk, Except.toBool, h]
    · rename_i h; simp [Except.isOk, Except.toBool, h]
  · intro h
    unfold save_weights
    split
    · rename_i h2; exact absurd h2 h
    · rfl
  · intro h1 h2 h3 h4
    have hj1 : W1q.flatten.length = 128 := by
      have := join_length_of_rows W1q 8 h1.2
      rw [h1.1] at this; simpa using this
    have hj2 : W2q.flatten.length = 64 := by
      have := join_length_of_rows W2q 16 h3.2
      rw [h3.1] at this; simpa using this
    have hlen : (flatWeights W1q b1q W2q b2q).length = 212 := by
      simp [flatWeights, hj1, hj2, h2, h4]
    refine ⟨hj1, hj2, hlen, ?_⟩
    unfold save_weights
    split
    · rfl
    · rename_i h; exact absurd hlen h

set_option maxRecDepth 4000 in
/-- Claim C3 witness: `save_weights` on all-zero tensors of the documented
shapes succeeds with the 212-entry flat sequence. -/
theorem save_weights_spec_witness :
    (hasShape (List.replicate 16 (List.replicate 8 (0:ℤ))) 16 8 ∧
      (List.replicate 16 (0:ℤ)).length = 16 ∧
      hasShape (List.replicate 4 (List.replicate 16 (0:ℤ))) 4 16 ∧
      (List.replicate 4 (0:ℤ)).length = 4) ∧
    (flatWeights (List.replicate 16 (List.replicate 8 (0:ℤ))) (List.replicate 16 (0:ℤ))
        (List.replicate 4 (List.replicate 16 (0:ℤ))) (List.replicate 4 (0:ℤ))).length = 212 ∧
    save_weights (List.replicate 16 (List.replicate 8 (0:ℤ))) (List.replicate 16 (0:ℤ))
        (List.replicate 4 (List.replicate 16 (0:ℤ))) (List.replicate 4 (0:ℤ))
        [1, 1, 1, 1] =
      .ok ⟨List.replicate 16 (List.replicate 8 (0:ℤ)), List.replicate 16 (0:ℤ),
        List.replicate 4 (List.replicate 16 (0:ℤ)), List.replicate 4 (0:ℤ),
        flatWeights (List.replicate 16 (List.replicate 8 (0:ℤ))) (List.replicate 16 (0:ℤ))
          (List.replicate 4 (List.replicate 16 (0:ℤ))) (List.replicate 4 (0:ℤ)),
        [1, 1, 1, 1]⟩ :=
  ⟨⟨by decide, by decide, by decide, by decide⟩,
    ((save_weights_spec (List.replicate 16 (List.replicate 8 (0:ℤ))) (List.replicate 16 (0:ℤ))
      (List.replicate 4 (List.replicate 16 (0:ℤ))) (List.replicate 4 (0:ℤ))
      [1, 1, 1, 1]).2.2 (by decide) (by decide) (by decide) (by decide)).2.2⟩

/-! ### `_extract_features_from_signal` -/

def argmaxAux : List ℚ → Nat → Nat → ℚ → Nat
  | [], _, best, _ => best
  | v :: rest, i, best, bv =>
    if bv < v then argmaxAux rest (i + 1) i v else argmaxAux rest (i + 1) best bv

/-- `np.argmax`: index of the first occurrence of the maximum (0 on empty). -/
def argmaxIdx : List ℚ → Nat
  | [] => 0
  | v :: rest => argmaxAux rest 1 0 v

/-- Checked division: models Python float division, which raises on a zero
denominator. -/
def safeDiv (a b : ℚ) : Option ℚ := if b = 0 then none else some (a / b)

/-- Model of `_extract_features_from_signal` (train_senseedge.py lines
204-234) from the 32-bin magnitude spectrum onward.  The FFT front end
(`np.fft.rfft` + `np.abs`) is external numpy code, so the extractor is
modelled on its output `mag`; the centroid division is checked, so a Python
`ZeroDivisionError` would appear as `none`. -/
def featuresFromMag (mag : List ℚ) : Option (List ℚ) :=
  let band_low := ((mag.drop 1).take 4).sum
  let band_midlow := ((mag.drop 5).take 6).sum
  let band_midhi := ((mag.drop 11).take 10).sum
  let band_high := ((mag.drop 21).take 11).sum
  let peak_bin := argmaxIdx mag
  let peak_mag_val := mag.getD peak_bin 0
  let total := mag.sum
  let centroidOpt : Option ℚ :=
    if 0 < total then
      safeDiv (((List.range 32).map (fun (j : Nat) => (j : ℚ) * mag.getD j 0)).sum) total
    else some 0
  centroidOpt.map (fun centroid =>
    [band_low, band_midlow, band_midhi, band_high,
     (peak_bin : ℚ) * 8, peak_mag_val, centroid * 8, total])

/-- The division guard `if total > 0` makes the division-error branch
unreachable for every spectrum. -/
theorem featuresFromMag_isSome (mag : List ℚ) : (featuresFromMag mag).isSome = true := by
  unfold featuresFromMag safeDiv
  by_cases h : 0 < mag.sum
  · simp [h, ne_of_gt h]
  · simp [h]

/-- The always-successful value of the extractor. -/
def extractFeatures (mag : List ℚ) : List ℚ := (featuresFromMag mag).getD []

theorem featuresFromMag_eq_some (mag : List ℚ) :
    featuresFromMag mag = some (extractFeatures mag) := by
  have h := featuresFromMag_isSome mag
  cases he : featuresFromMag mag with
  | none => rw [he] at h; cases h
  | some v => simp [extractFeatures, he]

theorem argmaxAux_zero (k i best : Nat) :
    argmaxAux (List.replicate k (0:ℚ)) i best 0 = best := by
  induction k generalizing i with
  | zero => rfl
  | succ m ih => simp only [List.replicate, argmaxAux, lt_irrefl, if_neg, ih, if_false]

/-- An all-zero spectrum produces the all-zero feature vector (through the
`total = 0` guard branch). -/
theorem featuresFromMag_replicate_zero (n : Nat) :
    featuresFromMag (List.replicate n (0:ℚ)) = some [0, 0, 0, 0, 0, 0, 0, 0] := by
  have hmax : argmaxIdx (List.replicate n (0:ℚ)) = 0 := by
    cases n with
    | zero => rfl
    | succ m =>
      show argmaxAux (List.replicate m (0:ℚ)) 1 0 0 = 0
      exact argmaxAux_zero m 1 0
  have hsum : (List.replicate n (0:ℚ)).sum = 0 := by
    simp [List.sum_replicate]
  have hdt : ∀ a b : Nat, (((List.replicate n (0:ℚ)).drop a).take b).sum = 0 := by
    intro a b
    simp [List.drop_replicate, List.take_replicate, List.sum_replicate]
  have hgd : ∀ k : Nat, (List.replicate n (0:ℚ)).getD k 0 = 0 := by
    intro k
    rcases lt_or_ge k n with h | h
    · rw [List.getD_eq_getElem _ _ (by simpa using h)]; simp
    · rw [List.getD_eq_default _ _ (by simpa using h)]
  unfold featuresFromMag
  rw [hsum]
  simp only [lt_irrefl, if_neg, if_false, Option.map_some]
  rw [hdt, hdt, hdt, hdt, hmax, hgd 0]
  norm_num

theorem extractFeatures_replicate_zero (n : Nat) :
    extractFeatures (List.replicate n (0:ℚ)) = [0, 0, 0, 0, 0, 0, 0, 0] := by
  simp [extractFeatures, featuresFromMag_replicate_zero n]

/-- Claim C9: on an all-zero magnitude spectrum the guard takes the
`total = 0` branch, no division error is raised, and the centroid feature
(index 6) is 0 — the whole feature vector is zero. -/
theorem featuresFromMag_zero_spectrum (n : Nat) (mag : List ℚ)
    (hz : mag = List.replicate n 0) :
    (featuresFromMag mag).isSome = true ∧
    featuresFromMag mag = some [0, 0, 0, 0, 0, 0, 0, 0] ∧
    (extractFeatures mag).getD 6 0 = 0 := by
  subst hz
  have hres := featuresFromMag_replicate_zero n
  refine ⟨by rw [hres]; rfl, hres, ?_⟩
  simp [extractFeatures, hres]

/-- Claim C9 witness at the concrete all-zero 32-bin spectrum. -/
theorem featuresFromMag_zero_spectrum_witness :
    List.replicate 32 (0:ℚ) = List.replicate 32 0 ∧
    ((featuresFromMag (List.replicate 32 (0:ℚ))).isSome = true ∧
     featuresFromMag (List.replicate 32 (0:ℚ)) = some [0, 0, 0, 0, 0, 0, 0, 0] ∧
     (extractFeatures (List.replicate 32 (0:ℚ))).getD 6 0 = 0) :=
  ⟨rfl, featuresFromMag_zero_spectrum 32 (List.replicate 32 0) rfl⟩

/-! ### windowing in `load_cwru_data` -/

/-- `n_windows = (len(signal) - window_size) // hop`: Python floor division
on integers (negative for short signals, making the window range empty). -/
def nWindows (len : Nat) : ℤ := Int.fdiv ((len : ℤ) - 1024) 512

/-- The start offsets the loader iterates: `i * hop` for `i in range(n_windows)`. -/
def windowStarts (len : Nat) : List Nat :=
  (List.range (nWindows len).toNat).map (fun i => i * 512)

/-- The window segments `signal[i*hop : i*hop + window_size]`. -/
def windowsOf (signal : List ℚ) : List (List ℚ) :=
  (windowStarts signal.length).map (fun s => (signal.drop s).take 1024)

set_option maxRecDepth 10000 in
/-- Claim C5 counterexample: a signal of length exactly 1024 yields zero
windows, not one, although the window starting at offset 0 would satisfy
`start + 1024 ≤ length`. -/
theorem windows_length1024_counterexample :
    0 + 1024 ≤ (List.replicate 1024 (0:ℚ)).length ∧
    (windowsOf (List.replicate 1024 (0:ℚ))).length = 0 := by
  constructor
  · simp
  · simp [windowsOf, windowStarts, nWindows]

/-- Claim C5 (amended): the loader produces one window per start offset
`i * 512` with `i < (length - 1024) // 512` (Python floor division), i.e. a
multiple of 512 is a produced start offset exactly when `start + 1536 ≤
length` — the final overlapping window with `start + 1024 ≤ length` is always
omitted, and a signal of length exactly 1024 yields zero windows. -/
theorem windowStarts_mem (len i : Nat) :
    i * 512 ∈ windowStarts len ↔ i * 512 + 1536 ≤ len := by
  unfold windowStarts nWindows
  rw [Int.fdiv_eq_ediv _ (by norm_num)]
  simp only [List.mem_map, List.mem_range]
  constructor
  · rintro ⟨j, hj, hje⟩
    have : j = i := by omega
    subst this
    omega
  · intro h
    exact ⟨i, by omega, rfl⟩

theorem windowStarts_mem_iff (signal : List ℚ) (i : Nat) :
    (i * 512 ∈ windowStarts signal.length ↔ i * 512 + 1536 ≤ signal.length) ∧
    windowsOf signal = (windowStarts signal.length).map (fun s => (signal.drop s).take 1024) :=
  ⟨windowStarts_mem signal.length i, rfl⟩

/-! ### `load_cwru_data` and the exit status of `main` -/

/-- Outcome of looking for one expected `.mat` file: the file can be absent,
present without a `*_DE_time` key (both skipped with a warning), or present
with a drive-end signal. -/
inductive FileStatus
  | missing
  | noKey
  | signal (s : List ℚ)
deriving DecidableEq

/-- The environment `load_cwru_data` observes: whether scipy is importable,
and the file status for each of the 4 class labels (insertion order of the
`file_class_map` dict: Normal.mat → 0, B007.mat → 1, IR007.mat → 2,
OR007.mat → 3). -/
structure CwruEnv where
  scipyAvailable : Bool
  files : Nat → FileStatus

/-- The two `sys.exit(1)` sites of `load_cwru_data`: the scipy `ImportError`
handler (`ConfigurationError` in the design document) and the empty-dataset
check (`FatalDataError`). -/
inductive LoadError
  | configurationError
  | fatalDataError
deriving DecidableEq

/-- Feature vectors extracted from one class file: every window of the
signal is mapped through `_extract_features_from_signal`; missing files and
files without a DE key are skipped (`continue`). -/
def classSamples (magOf : List ℚ → List ℚ) (fs : FileStatus) : List (List ℚ) :=
  match fs with
  | .missing => []
  | .noKey => []
  | .signal s => (windowsOf s).map (fun seg => extractFeatures (magOf seg))

/-- `X_all`/`y_all` accumulated over the 4 classes in dict order, zipped as
(features, label) pairs. -/
def loadRaw (magOf : List ℚ → List ℚ) (env : CwruEnv) : List (List ℚ × Nat) :=
  (List.range 4).flatMap (fun c => (classSamples magOf (env.files c)).map (fun f => (f, c)))

/-- Column `j` of the dataset, `X[:, j]`. -/
def colVals (X : List (List ℚ)) (j : Nat) : List ℚ := X.map (fun r => r.getD j 0)

/-- `np.min` of a nonempty column (0 on empty, unreachable here). -/
def listMin : List ℚ → ℚ
  | [] => 0
  | h :: t => t.foldl min h

/-- `np.max` of a nonempty column (0 on empty, unreachable here). -/
def listMax : List ℚ → ℚ
  | [] => 0
  | h :: t => t.foldl max h

/-- One step of the per-column min-max normalization loop:
`X[:, j] = (col - cmin) / (cmax - cmin) * 255` when the column has positive
range, else all zeros. -/
def normalizeCol (X : List (List ℚ)) (j : Nat) : List ℚ :=
  if listMin (colVals X j) < listMax (colVals X j) then
    (colVals X j).map (fun v =>
      (v - listMin (colVals X j)) / (listMax (colVals X j) - listMin (colVals X j)) * 255)
  else
    (colVals X j).map (fun _ => 0)

/-- The dataset after the `for j in range(8)` normalization loop (columns are
disjoint, so the 8 in-place column writes commute with the reads). -/
def normalizeAll (X : List (List ℚ)) : List (List ℚ) :=
  (List.range X.length).map (fun i => (List.range 8).map (fun j => (normalizeCol X j).getD i 0))

/-- Model of `load_cwru_data` (train_senseedge.py lines 124-201).  `magOf`
abstracts the external FFT front end; `gperm` is the index list returned by
the process-wide `np.random.permutation(len(y))` call on line 200 — it is an
input of the model because it is NOT derived from the seeded generator or
from the directory contents. -/
def load_cwru_data (magOf : List ℚ → List ℚ) (env : CwruEnv) (gperm : List Nat) :
    Except LoadError (List (List ℚ) × List Nat) :=
  if env.scipyAvailable = false then .error .configurationError
  else if loadRaw magOf env = [] then .error .fatalDataError
  else
    .ok (gperm.map (fun i => (normalizeAll ((loadRaw magOf env).map Prod.fst)).getD i []),
         gperm.map (fun i => ((loadRaw magOf env).map Prod.snd).getD i 0))

/-- The exit status of `main`: the only non-zero exits in the program are the
two `sys.exit(1)` calls inside `load_cwru_data`; the synthetic path never
exits non-zero and `main` returns 0 after a successful load. -/
def mainExitCode (magOf : List ℚ → List ℚ) (cwruEnv : Option CwruEnv)
    (gperm : List Nat) : Nat :=
  match cwruEnv with
  | none => 0
  | some env =>
    match load_cwru_data magOf env gperm with
    | .error _ => 1
    | .ok _ => 0

/-- A trivial FFT front end used for concrete runs: an all-zero spectrum. -/
def magZero : List ℚ → List ℚ := fun _ => List.replicate 32 0

/-- An environment where scipy is missing but every class file holds a signal
long enough to produce windows. -/
def envScipyMissing : CwruEnv :=
  ⟨false, fun _ => .signal (List.replicate 2048 1)⟩

/-- The scipy-missing environment would produce at least the first window of
class 0, so its dataset is nonempty. -/
theorem loadRaw_scipyMissing_ne_nil : loadRaw magZero envScipyMissing ≠ [] := by
  intro h
  have hmem : ((List.replicate 2048 (1:ℚ)).drop (0 * 512)).take 1024 ∈
      windowsOf (List.replicate 2048 1) := by
    apply List.mem_map_of_mem
    rw [windowStarts_mem, List.length_replicate]
    norm_num
  have helem : (extractFeatures (magZero (((List.replicate 2048 (1:ℚ)).drop (0 * 512)).take 1024)), 0) ∈
      loadRaw magZero envScipyMissing := by
    unfold loadRaw
    rw [List.mem_flatMap]
    refine ⟨0, by decide, ?_⟩
    show _ ∈ (classSamples magZero (envScipyMissing.files 0)).map _
    have hf : envScipyMissing.files 0 = .signal (List.replicate 2048 1) := rfl
    rw [hf]
    unfold classSamples
    exact List.mem_map_of_mem _ (List.mem_map_of_mem _ hmem)
  rw [h] at helem
  cases helem

/-- Claim C1 counterexample: with scipy missing (the `ConfigurationError`
path) the program exits with status 1, not 0, even though the environment
would otherwise produce plenty of usable samples. -/
theorem mainExitCode_counterexample :
    mainExitCode magZero (some envScipyMissing) [] = 1 ∧
    load_cwru_data magZero envScipyMissing [] = .error .configurationError ∧
    loadRaw magZero envScipyMissing ≠ [] :=
  ⟨rfl, rfl, loadRaw_scipyMissing_ne_nil⟩

/-- Claim C1 (amended): the exit status is non-zero exactly when the
real-signal path is selected and either scipy is missing
(`ConfigurationError`, also `sys.exit(1)`) or zero usable samples were
produced (`FatalDataError`); the synthetic path always exits 0. -/
theorem mainExitCode_spec (magOf : List ℚ → List ℚ) (env : CwruEnv) (gperm : List Nat) :
    mainExitCode magOf none gperm = 0 ∧
    (mainExitCode magOf (some env) gperm ≠ 0 ↔
      env.scipyAvailable = false ∨ loadRaw magOf env = []) := by
  refine ⟨rfl, ?_⟩
  unfold mainExitCode load_cwru_data
  by_cases h1 : env.scipyAvailable = false
  · simp [h1]
  · by_cases h2 : loadRaw magOf env = [] <;> simp [h1, h2]

deriving instance DecidableEq for Except

/-- An environment with scipy available and two zero-signal class files, each
long enough for exactly one window. -/
def envZeroTwo : CwruEnv :=
  ⟨true, fun c => if c < 2 then .signal (List.replicate 1536 0) else .missing⟩

/-- A signal of length 1536 yields exactly the single window `[0, 1024)`. -/
theorem windowsOf_replicate_1536 (a : ℚ) :
    windowsOf (List.replicate 1536 a) = [List.replicate 1024 a] := by
  unfold windowsOf
  rw [List.length_replicate]
  have hws : windowStarts 1536 = [0] := by decide
  rw [hws]
  simp only [List.map_cons, List.map_nil, List.drop_zero]
  rw [List.take_replicate, min_eq_left (by norm_num : (1024:Nat) ≤ 1536)]

/-- The two-class zero-signal environment produces exactly two labeled
samples, both with the all-zero feature vector. -/
theorem loadRaw_zeroTwo :
    loadRaw magZero envZeroTwo =
      [([0, 0, 0, 0, 0, 0, 0, 0], 0), ([0, 0, 0, 0, 0, 0, 0, 0], 1)] := by
  unfold loadRaw
  have h4 : List.range 4 = [0, 1, 2, 3] := rfl
  rw [h4]
  have hf0 : envZeroTwo.files 0 = .signal (List.replicate 1536 0) := rfl
  have hf1 : envZeroTwo.files 1 = .signal (List.replicate 1536 0) := rfl
  have hf2 : envZeroTwo.files 2 = .missing := rfl
  have hf3 : envZeroTwo.files 3 = .missing := rfl
  simp only [List.flatMap_cons, List.flatMap_nil, hf0, hf1, hf2, hf3]
  simp only [classSamples, windowsOf_replicate_1536]
  simp only [List.map_cons, List.map_nil]
  have hm : magZero (List.replicate 1024 (0:ℚ)) = List.replicate 32 0 := rfl
  rw [hm, extractFeatures_replicate_zero]
  rfl

theorem load_zeroTwo_01 :
    load_cwru_data magZero envZeroTwo [0, 1] =
      .ok ([[0, 0, 0, 0, 0, 0, 0, 0], [0, 0, 0, 0, 0, 0, 0, 0]], [0, 1]) := by
  unfold load_cwru_data
  rw [loadRaw_zeroTwo]
  decide

theorem load_zeroTwo_10 :
    load_cwru_data magZero envZeroTwo [1, 0] =
      .ok ([[0, 0, 0, 0, 0, 0, 0, 0], [0, 0, 0, 0, 0, 0, 0, 0]], [1, 0]) := by
  unfold load_cwru_data
  rw [loadRaw_zeroTwo]
  decide

/-- Claim C2 counterexample: over identical file contents, two runs that get
different index lists from the process-wide `np.random.permutation` (line
200) return different datasets — `load` is not a deterministic function of
the directory contents alone. -/
theorem load_global_shuffle_counterexample :
    [0, 1].Perm (List.range (loadRaw magZero envZeroTwo).length) ∧
    [1, 0].Perm (List.range (loadRaw magZero envZeroTwo).length) ∧
    load_cwru_data magZero envZeroTwo [0, 1] ≠
      load_cwru_data magZero envZeroTwo [1, 0] := by
  refine ⟨?_, ?_, ?_⟩
  · rw [loadRaw_zeroTwo]; decide
  · rw [loadRaw_zeroTwo]; decide
  · rw [load_zeroTwo_01, load_zeroTwo_10]; decide

/-- Claim C2 (amended): the synthetic provider and trainer draw from seeded
generator instances, but `load`'s final shuffle draws from the process-wide
generator, so `load` is deterministic only up to sample order: for any two
index permutations handed back by the global source, the two outputs are
permutations of the same labeled dataset. -/
theorem load_shuffle_perm (magOf : List ℚ → List ℚ) (env : CwruEnv) (p1 p2 : List Nat)
    (h1 : p1.Perm (List.range (loadRaw magOf env).length))
    (h2 : p2.Perm (List.range (loadRaw magOf env).length))
    (X1 X2 : List (List ℚ)) (y1 y2 : List Nat)
    (e1 : load_cwru_data magOf env p1 = .ok (X1, y1))
    (e2 : load_cwru_data magOf env p2 = .ok (X2, y2)) :
    (X1.zip y1).Perm (X2.zip y2) ∧ X1.Perm X2 ∧ y1.Perm y2 := by
  unfold load_cwru_data at e1 e2
  by_cases hs : env.scipyAvailable = false
  · rw [if_pos hs] at e1; cases e1
  · rw [if_neg hs] at e1; rw [if_neg hs] at e2
    by_cases hr : loadRaw magOf env = []
    · rw [if_pos hr] at e1; cases e1
    · rw [if_neg hr] at e1; rw [if_neg hr] at e2
      injection e1 with e1'
      injection e2 with e2'
      obtain ⟨hX1, hy1⟩ := Prod.ext_iff.mp e1'
      obtain ⟨hX2, hy2⟩ := Prod.ext_iff.mp e2'
      subst hX1; subst hy1; subst hX2; subst hy2
      refine ⟨?_, ?_, ?_⟩
      · rw [List.zip_map', List.zip_map']
        exact (h1.map _).trans ((h2.map _).symm)
      · exact (h1.map _).trans ((h2.map _).symm)
      · exact (h1.map _).trans ((h2.map _).symm)

/-- Claim C2 witness: the two concrete loads above are permutations of the
same labeled dataset. -/
theorem load_shuffle_perm_witness :
    ([0, 1].Perm (List.range (loadRaw magZero envZeroTwo).length) ∧
     [1, 0].Perm (List.range (loadRaw magZero envZeroTwo).length) ∧
     load_cwru_data magZero envZeroTwo [0, 1] =
       .ok ([[0, 0, 0, 0, 0, 0, 0, 0], [0, 0, 0, 0, 0, 0, 0, 0]], [0, 1]) ∧
     load_cwru_data magZero envZeroTwo [1, 0] =
       .ok ([[0, 0, 0, 0, 0, 0, 0, 0], [0, 0, 0, 0, 0, 0, 0, 0]], [1, 0])) ∧
    (([[(0:ℚ), 0, 0, 0, 0, 0, 0, 0], [0, 0, 0, 0, 0, 0, 0, 0]].zip [0, 1]).Perm
       ([[(0:ℚ), 0, 0, 0, 0, 0, 0, 0], [0, 0, 0, 0, 0, 0, 0, 0]].zip [1, 0]) ∧
     [[(0:ℚ), 0, 0, 0, 0, 0, 0, 0], [0, 0, 0, 0, 0, 0, 0, 0]].Perm
       [[0, 0, 0, 0, 0, 0, 0, 0], [0, 0, 0, 0, 0, 0, 0, 0]] ∧
     [0, 1].Perm [1, 0]) := by
  have hp1 : [0, 1].Perm (List.range (loadRaw magZero envZeroTwo).length) := by
    rw [loadRaw_zeroTwo]; decide
  have hp2 : [1, 0].Perm (List.range (loadRaw magZero envZeroTwo).length) := by
    rw [loadRaw_zeroTwo]; decide
  exact ⟨⟨hp1, hp2, load_zeroTwo_01, load_zeroTwo_10⟩,
    load_shuffle_perm magZero envZeroTwo [0, 1] [1, 0] hp1 hp2
      [[0, 0, 0, 0, 0, 0, 0, 0], [0, 0, 0, 0, 0, 0, 0, 0]]
      [[0, 0, 0, 0, 0, 0, 0, 0], [0, 0, 0, 0, 0, 0, 0, 0]]
      [0, 1] [1, 0] load_zeroTwo_01 load_zeroTwo_10⟩

/-! ### `np.random.RandomState` and `generate_synthetic_data` -/

/-- Model of an explicitly constructed `np.random.RandomState(seed)`
instance.  The Mersenne Twister bit stream is external numpy code; it is
modelled by a small deterministic congruential stream exposing the
interface properties the pipeline relies on: draws in `[0, 1)`, permutations
of `range m`, and full determinism from the seed. -/
structure RandomState where
  state : Nat
deriving DecidableEq

def mkRandomState (seed : Nat) : RandomState := ⟨seed % 2147483648⟩

/-- One raw draw from the stream, with the successor state. -/
def nextNat (r : RandomState) : Nat × RandomState :=
  ((r.state * 1103515245 + 12345) % 2147483648,
   ⟨(r.state * 1103515245 + 12345) % 2147483648⟩)

/-- One raw draw scaled into `[0, 1)`. -/
def nextUnit (r : RandomState) : ℚ × RandomState :=
  (((nextNat r).1 : ℚ) / 2147483648, (nextNat r).2)

/-- `rng.uniform(lo, hi, n)`: `n` draws in `[lo, hi)`. -/
def uniform (lo hi : ℚ) : Nat → RandomState → List ℚ × RandomState
  | 0, r => ([], r)
  | n + 1, r =>
    ((lo + (nextUnit r).1 * (hi - lo)) :: (uniform lo hi n (nextUnit r).2).1,
     (uniform lo hi n (nextUnit r).2).2)

/-- Fisher-Yates: repeatedly remove a stream-chosen element of the pool. -/
def permAux : Nat → List Nat → RandomState → List Nat × RandomState
  | 0, _, r => ([], r)
  | k + 1, pool, r =>
    (pool.getD ((nextNat r).1 % pool.length) 0 ::
       (permAux k (pool.eraseIdx ((nextNat r).1 % pool.length)) (nextNat r).2).1,
     (permAux k (pool.eraseIdx ((nextNat r).1 % pool.length)) (nextNat r).2).2)

/-- `rng.permutation(m)`: a shuffle of `range m` driven by the stream. -/
def permutation (m : Nat) (r : RandomState) : List Nat × RandomState :=
  permAux m (List.range m) r

theorem nextUnit_bounds (r : RandomState) :
    0 ≤ (nextUnit r).1 ∧ (nextUnit r).1 < 1 := by
  unfold nextUnit nextNat
  constructor
  · positivity
  · rw [div_lt_one (by norm_num)]
    have h := Nat.mod_lt ((r.state * 1103515245 + 12345)) (by norm_num : 0 < 2147483648)
    exact_mod_cast h

theorem getD_cons_eraseIdx_perm (l : List Nat) (j : Nat) (hj : j < l.length) :
    l.Perm (l.getD j 0 :: l.eraseIdx j) := by
  induction l generalizing j with
  | nil => cases hj
  | cons a t ih =>
    cases j with
    | zero => simp [List.getD_cons_zero, List.eraseIdx_cons_zero]
    | succ j' =>
      have hj' : j' < t.length := by simpa using hj
      have h2 : (a :: t).Perm (a :: (t.getD j' 0 :: t.eraseIdx j')) := (ih j' hj').cons a
      have h3 : (a :: t.getD j' 0 :: t.eraseIdx j').Perm
          (t.getD j' 0 :: a :: t.eraseIdx j') := List.Perm.swap _ _ _
      rw [List.getD_cons_succ, List.eraseIdx_cons_succ]
      exact h2.trans h3

theorem permAux_perm (k : Nat) (pool : List Nat) (r : RandomState)
    (hk : pool.length = k) : (permAux k pool r).1.Perm pool := by
  induction k generalizing pool r with
  | zero =>
    have h : pool = [] := List.length_eq_zero.mp hk
    subst h
    simp [permAux]
  | succ k' ih =>
    have hpos : 0 < pool.length := by omega
    have hjlt : (nextNat r).1 % pool.length < pool.length := Nat.mod_lt _ hpos
    have hlen : (pool.eraseIdx ((nextNat r).1 % pool.length)).length = k' := by
      rw [List.length_eraseIdx]
      simp only [hjlt, if_pos]
      omega
    have hrec := ih (pool.eraseIdx ((nextNat r).1 % pool.length)) (nextNat r).2 hlen
    exact (hrec.cons _).trans (getD_cons_eraseIdx_perm pool _ hjlt).symm

theorem permutation_perm (m : Nat) (r : RandomState) :
    (permutation m r).1.Perm (List.range m) :=
  permAux_perm m (List.range m) r (by simp)

theorem map_getD_range_eq {α : Type} (l : List α) (d : α) :
    (List.range l.length).map (fun i => l.getD i d) = l := by
  apply List.ext_getElem
  · simp
  · intro k h1 h2
    simp only [List.getElem_map, List.getElem_range]
    exact List.getD_eq_getElem l d h2

theorem perm_map_getD {α : Type} (p : List Nat) (l : List α) (d : α)
    (hp : p.Perm (List.range l.length)) : (p.map (fun i => l.getD i d)).Perm l := by
  have h1 := hp.map (fun i => l.getD i d)
  rw [map_getD_range_eq l d] at h1
  exact h1

theorem getD_mem_or {α : Type} (l : List α) (i : Nat) (d : α) :
    l.getD i d = d ∨ l.getD i d ∈ l := by
  rcases lt_or_ge i l.length with h | h
  · right
    rw [List.getD_eq_getElem _ _ h]
    exact List.getElem_mem h
  · left
    exact List.getD_eq_default _ _ (by simpa using h)

/-- The documented class-0 uniform ranges (train_senseedge.py lines 57-64),
in feature order. -/
def class0Ranges : List (ℚ × ℚ) :=
  [(140, 255), (20, 80), (5, 40), (0, 25), (10, 60), (30, 100), (10, 50), (40, 120)]

/-- The documented class-1 uniform ranges (lines 71-78). -/
def class1Ranges : List (ℚ × ℚ) :=
  [(40, 100), (150, 255), (30, 80), (10, 50), (50, 110), (180, 255), (50, 100), (120, 200)]

/-- The documented class-2 uniform ranges (lines 85-92). -/
def class2Ranges : List (ℚ × ℚ) :=
  [(20, 70), (30, 80), (160, 255), (20, 70), (100, 170), (100, 180), (100, 160), (100, 180)]

/-- The documented class-3 uniform ranges (lines 99-106). -/
def class3Ranges : List (ℚ × ℚ) :=
  [(10, 50), (15, 60), (40, 100), (170, 255), (170, 248), (120, 210), (160, 230), (130, 220)]

/-- Draw the 8 per-feature arrays of one class, threading the generator. -/
def drawFeatures : List (ℚ × ℚ) → Nat → RandomState → List (List ℚ) × RandomState
  | [], _, r => ([], r)
  | (lo, hi) :: rest, n, r =>
    ((uniform lo hi n r).1 :: (drawFeatures rest n (uniform lo hi n r).2).1,
     (drawFeatures rest n (uniform lo hi n r).2).2)

/-- `np.column_stack`: sample `i` collects element `i` of each feature array. -/
def columnStack (cols : List (List ℚ)) (n : Nat) : List (List ℚ) :=
  (List.range n).map (fun i => cols.map (fun c => c.getD i 0))

/-- Generator state after the four classes' draws. -/
def synthState (n seed : Nat) : RandomState :=
  (drawFeatures class3Ranges n
    (drawFeatures class2Ranges n
      (drawFeatures class1Ranges n
        (drawFeatures class0Ranges n (mkRandomState seed)).2).2).2).2

/-- `np.vstack(X_all)`: the pre-shuffle feature matrix. -/
def synthX (n seed : Nat) : List (List ℚ) :=
  columnStack (drawFeatures class0Ranges n (mkRandomState seed)).1 n ++
  columnStack (drawFeatures class1Ranges n
    (drawFeatures class0Ranges n (mkRandomState seed)).2).1 n ++
  columnStack (drawFeatures class2Ranges n
    (drawFeatures class1Ranges n
      (drawFeatures class0Ranges n (mkRandomState seed)).2).2).1 n ++
  columnStack (drawFeatures class3Ranges n
    (drawFeatures class2Ranges n
      (drawFeatures class1Ranges n
        (drawFeatures class0Ranges n (mkRandomState seed)).2).2).2).1 n

/-- `np.concatenate(y_all)`: the pre-shuffle label vector. -/
def synthLabels (n : Nat) : List Nat :=
  List.replicate n 0 ++ List.replicate n 1 ++ List.replicate n 2 ++ List.replicate n 3

/-- `idx = rng.permutation(len(y))`: drawn from the same seeded instance. -/
def synthIdx (n seed : Nat) : List Nat :=
  (permutation (synthLabels n).length (synthState n seed)).1

/-- Model of `generate_synthetic_data` (train_senseedge.py lines 36-117). -/
def generate_synthetic_data (nPerClass seed : Nat) : List (List ℚ) × List Nat :=
  ((synthIdx nPerClass seed).map (fun i => (synthX nPerClass seed).getD i []),
   (synthIdx nPerClass seed).map (fun i => (synthLabels nPerClass).getD i 0))

/-- The process-wide generator state, threaded explicitly;
`generate_synthetic_data` constructs its own seeded instance and never
touches the global one. -/
def generate_full (nPerClass seed : Nat) (g : RandomState) :
    (List (List ℚ) × List Nat) × RandomState :=
  (generate_synthetic_data nPerClass seed, g)

/-- A range list usable for feature draws: nonnegative, ordered, within 255. -/
def boundedRanges (rs : List (ℚ × ℚ)) : Prop :=
  ∀ p ∈ rs, 0 ≤ p.1 ∧ p.1 ≤ p.2 ∧ p.2 ≤ 255

instance (rs : List (ℚ × ℚ)) : Decidable (boundedRanges rs) := by
  unfold boundedRanges; infer_instance

theorem uniform_bounds (lo hi : ℚ) (h0 : 0 ≤ lo) (hle : lo ≤ hi) (h255 : hi ≤ 255)
    (n : Nat) : ∀ (r : RandomState), ∀ v ∈ (uniform lo hi n r).1, 0 ≤ v ∧ v ≤ 255 := by
  induction n with
  | zero => intro r v hv; simp [uniform] at hv
  | succ m ih =>
    intro r v hv
    have hstep : (uniform lo hi (m + 1) r).1 =
        (lo + (nextUnit r).1 * (hi - lo)) :: (uniform lo hi m (nextUnit r).2).1 := rfl
    rw [hstep] at hv
    rcases List.mem_cons.mp hv with h | h
    · subst h
      have hu := nextUnit_bounds r
      constructor
      · nlinarith [hu.1, hu.2]
      · nlinarith [hu.1, hu.2]
    · exact ih (nextUnit r).2 v h

theorem drawFeatures_bounds : ∀ (rs : List (ℚ × ℚ)), boundedRanges rs →
    ∀ (n : Nat) (r : RandomState), ∀ col ∈ (drawFeatures rs n r).1,
      ∀ v ∈ col, 0 ≤ v ∧ v ≤ 255 := by
  intro rs
  induction rs with
  | nil => intro _ n r col hcol; simp [drawFeatures] at hcol
  | cons p rest ih =>
    intro hrs n r col hcol
    obtain ⟨lo, hi⟩ := p
    have hstep : (drawFeatures ((lo, hi) :: rest) n r).1 =
        (uniform lo hi n r).1 :: (drawFeatures rest n (uniform lo hi n r).2).1 := rfl
    rw [hstep] at hcol
    have hp := hrs (lo, hi) (List.mem_cons_self _ _)
    rcases List.mem_cons.mp hcol with h | h
    · subst h
      exact uniform_bounds lo hi hp.1 hp.2.1 hp.2.2 n r
    · exact ih (fun q hq => hrs q (List.mem_cons_of_mem _ hq)) n (uniform lo hi n r).2 col h

theorem columnStack_row_bounds (cols : List (List ℚ)) (n : Nat)
    (hc : ∀ col ∈ cols, ∀ v ∈ col, 0 ≤ v ∧ v ≤ 255) :
    ∀ row ∈ columnStack cols n, ∀ v ∈ row, 0 ≤ v ∧ v ≤ 255 := by
  intro row hrow v hv
  unfold columnStack at hrow
  obtain ⟨i, _, hrow'⟩ := List.mem_map.mp hrow
  subst hrow'
  obtain ⟨c, hcmem, hveq⟩ := List.mem_map.mp hv
  subst hveq
  rcases getD_mem_or c i 0 with h | h
  · rw [h]; norm_num
  · exact hc c hcmem _ h

theorem synthX_row_bounds (n seed : Nat) :
    ∀ row ∈ synthX n seed, ∀ v ∈ row, 0 ≤ v ∧ v ≤ 255 := by
  have hb0 : boundedRanges class0Ranges := by decide
  have hb1 : boundedRanges class1Ranges := by decide
  have hb2 : boundedRanges class2Ranges := by decide
  have hb3 : boundedRanges class3Ranges := by decide
  intro row hrow
  unfold synthX at hrow
  rcases List.mem_append.mp hrow with h | h
  · rcases List.mem_append.mp h with h2 | h2
    · rcases List.mem_append.mp h2 with h3 | h3
      · exact columnStack_row_bounds _ n (drawFeatures_bounds _ hb0 n _) row h3
      · exact columnStack_row_bounds _ n (drawFeatures_bounds _ hb1 n _) row h3
    · exact columnStack_row_bounds _ n (drawFeatures_bounds _ hb2 n _) row h2
  · exact columnStack_row_bounds _ n (drawFeatures_bounds _ hb3 n _) row h

theorem synthLabels_count (n c : Nat) (hc : c < 4) : (synthLabels n).count c = n := by
  unfold synthLabels
  rw [List.count_append, List.count_append, List.count_append]
  rw [List.count_replicate, List.count_replicate, List.count_replicate, List.count_replicate]
  interval_cases c <;> simp

/-- Claim C8: `generate(n, seed)` yields exactly `n` samples of each class
`c < 4`, every feature value lies in `[0, 255]`, and the dataset is a
function of `(n, seed)` alone — the process-wide generator state is never
consulted, so two calls with the same arguments agree. -/
theorem generate_synthetic_props (nper seed c : Nat) (hc : c < 4) (i j : Nat)
    (g1 g2 : RandomState) :
    (generate_synthetic_data nper seed).2.count c = nper ∧
    (0 ≤ ((generate_synthetic_data nper seed).1.getD i []).getD j 0 ∧
      ((generate_synthetic_data nper seed).1.getD i []).getD j 0 ≤ 255) ∧
    (generate_full nper seed g1).1 = (generate_full nper seed g2).1 := by
  refine ⟨?_, ?_, rfl⟩
  · show ((synthIdx nper seed).map (fun t => (synthLabels nper).getD t 0)).count c = nper
    have hperm : (synthIdx nper seed).Perm (List.range (synthLabels nper).length) :=
      permutation_perm _ _
    have h2 := perm_map_getD (synthIdx nper seed) (synthLabels nper) 0 hperm
    rw [List.Perm.count_eq h2]
    exact synthLabels_count nper c hc
  · show 0 ≤ (((synthIdx nper seed).map
        (fun t => (synthX nper seed).getD t [])).getD i []).getD j 0 ∧
      (((synthIdx nper seed).map
        (fun t => (synthX nper seed).getD t [])).getD i []).getD j 0 ≤ 255
    rcases getD_mem_or ((synthIdx nper seed).map
        (fun t => (synthX nper seed).getD t [])) i [] with h | h
    · rw [h]; norm_num
    · obtain ⟨k, _, hrow⟩ := List.mem_map.mp h
      rw [← hrow]
      rcases getD_mem_or (synthX nper seed) k [] with h2 | h2
      · rw [h2]; norm_num
      · rcases getD_mem_or ((synthX nper seed).getD k []) j 0 with h3 | h3
        · rw [h3]; norm_num
        · exact synthX_row_bounds nper seed _ h2 _ h3

/-- Claim C8 witness at `n = 2`, `seed = 0`, class 1, entry (0,0), two
distinct global states. -/
theorem generate_synthetic_props_witness :
    1 < 4 ∧
    ((generate_synthetic_data 2 0).2.count 1 = 2 ∧
     (0 ≤ ((generate_synthetic_data 2 0).1.getD 0 []).getD 0 0 ∧
       ((generate_synthetic_data 2 0).1.getD 0 []).getD 0 0 ≤ 255) ∧
     (generate_full 2 0 ⟨0⟩).1 = (generate_full 2 0 ⟨1⟩).1) :=
  ⟨by decide, generate_synthetic_props 2 0 1 (by decide) 0 0 ⟨0⟩ ⟨1⟩⟩

/-! ### `backward`: the closed-form gradients -/

/-- Dot product. -/
def dotQ (u v : List ℚ) : ℚ := (List.zipWith (· * ·) u v).sum

/-- Transpose of a matrix with `c` columns. -/
def matTranspose (c : Nat) (A : List (List ℚ)) : List (List ℚ) :=
  (List.range c).map (fun j => A.map (fun row => row.getD j 0))

/-- `A @ B.T`. -/
def matMulT (A B : List (List ℚ)) : List (List ℚ) :=
  A.map (fun ra => B.map (fun rb => dotQ ra rb))

/-- `A @ B` where `B` has `c` columns. -/
def matMul (c : Nat) (A B : List (List ℚ)) : List (List ℚ) :=
  matMulT A (matTranspose c B)

/-- `M.sum(axis=0)` for a matrix with `c` columns. -/
def colSum (c : Nat) (A : List (List ℚ)) : List ℚ :=
  (List.range c).map (fun j => (A.map (fun row => row.getD j 0)).sum)

/-- Element-wise matrix product. -/
def hadamard (A B : List (List ℚ)) : List (List ℚ) :=
  List.zipWith (List.zipWith (· * ·)) A B

/-- `relu_grad` (train_senseedge.py lines 251-252) applied element-wise. -/
def relu_grad (A : List (List ℚ)) : List (List ℚ) :=
  A.map (fun row => row.map (fun x => if 0 < x then (1:ℚ) else 0))

/-- `dz2 = probs.copy(); dz2[np.arange(n), labels] -= 1.0; dz2 /= n`
(lines 291-293): the in-place one-hot subtraction and batch division,
expressed as indexed maps. -/
def dz2Of (probs : List (List ℚ)) (labels : List Nat) (nq : ℚ) : List (List ℚ) :=
  probs.mapIdx (fun i row =>
    row.mapIdx (fun j p => (p - if labels.getD i 0 = j then 1 else 0) / nq))

/-- Model of `backward` (lines 282-305).  The source's locals `dz2`, `dh1`,
`dz1` are expanded in place. -/
def backward (X z1 h1 probs : List (List ℚ)) (labels : List Nat) (W2 : List (List ℚ)) :
    List (List ℚ) × List ℚ × List (List ℚ) × List ℚ :=
  (matMul 8 (matTranspose 16 (hadamard (matMul 16 (dz2Of probs labels (X.length : ℚ)) W2)
      (relu_grad z1))) X,
   colSum 16 (hadamard (matMul 16 (dz2Of probs labels (X.length : ℚ)) W2) (relu_grad z1)),
   matMul 16 (matTranspose 4 (dz2Of probs labels (X.length : ℚ))) h1,
   colSum 4 (dz2Of probs labels (X.length : ℚ)))

/-- Spec formula: `dz2[i][j] = (probs[i][j] - [label_i = j]) / n`. -/
def dz2S (probs : List (List ℚ)) (labels : List Nat) (nq : ℚ) (i j : Nat) : ℚ :=
  ((probs.getD i []).getD j 0 - if labels.getD i 0 = j then 1 else 0) / nq

/-- Spec formula: `dW2 = dz2ᵀ · h1`, entrywise. -/
def dW2S (probs h1 : List (List ℚ)) (labels : List Nat) (nq : ℚ) (nr a b : Nat) : ℚ :=
  ((List.range nr).map (fun i => dz2S probs labels nq i a * (h1.getD i []).getD b 0)).sum

/-- Spec formula: `db2 = column-sum(dz2)`, entrywise. -/
def db2S (probs : List (List ℚ)) (labels : List Nat) (nq : ℚ) (nr j : Nat) : ℚ :=
  ((List.range nr).map (fun i => dz2S probs labels nq i j)).sum

/-- Spec formula: `dh1 = dz2 · W2`, entrywise. -/
def dh1S (probs W2 : List (List ℚ)) (labels : List Nat) (nq : ℚ) (i b : Nat) : ℚ :=
  ((List.range 4).map (fun a => dz2S probs labels nq i a * (W2.getD a []).getD b 0)).sum

/-- Spec formula: `dz1 = dh1 ⊙ reluGrad(z1)`, entrywise. -/
def dz1S (probs W2 z1 : List (List ℚ)) (labels : List Nat) (nq : ℚ) (i b : Nat) : ℚ :=
  dh1S probs W2 labels nq i b * (if 0 < (z1.getD i []).getD b 0 then (1:ℚ) else 0)

/-- Spec formula: `dW1 = dz1ᵀ · X`, entrywise. -/
def dW1S (probs W2 z1 X : List (List ℚ)) (labels : List Nat) (nq : ℚ) (nr a b : Nat) : ℚ :=
  ((List.range nr).map (fun i => dz1S probs W2 z1 labels nq i a * (X.getD i []).getD b 0)).sum

/-- Spec formula: `db1 = column-sum(dz1)`, entrywise. -/
def db1S (probs W2 z1 : List (List ℚ)) (labels : List Nat) (nq : ℚ) (nr b : Nat) : ℚ :=
  ((List.range nr).map (fun i => dz1S probs W2 z1 labels nq i b)).sum

/-- A rational matrix of shape `(r, c)`. -/
def qShape (M : List (List ℚ)) (r c : Nat) : Prop :=
  M.length = r ∧ ∀ row ∈ M, row.length = c

instance (M : List (List ℚ)) (r c : Nat) : Decidable (qShape M r c) := by
  unfold qShape; infer_instance

theorem map_eq_range_map {α β : Type} (l : List α) (f : α → β) (m : Nat)
    (hl : l.length = m) (d : α) :
    l.map f = (List.range m).map (fun i => f (l.getD i d)) := by
  apply List.ext_getElem
  · simp [hl]
  · intro k h1 h2
    simp only [List.getElem_map, List.getElem_range]
    congr 1
    exact (List.getD_eq_getElem l d (by simpa using h1)).symm

theorem getD_range_map {β : Type} (m : Nat) (f : Nat → β) (i : Nat) (hi : i < m) (d : β) :
    ((List.range m).map f).getD i d = f i := by
  rw [List.getD_eq_getElem _ _ (by simpa using hi)]
  simp [List.getElem_map, List.getElem_range]

theorem zipWith_map_same {α β : Type} (f : β → β → β) (F G : α → β) (l : List α) :
    List.zipWith f (l.map F) (l.map G) = l.map (fun x => f (F x) (G x)) := by
  induction l with
  | nil => rfl
  | cons a t ih => simp [List.zipWith_cons_cons, ih]

theorem dotQ_eq_range (u v : List ℚ) (m : Nat) (hu : u.length = m) (hv : v.length = m) :
    dotQ u v = ((List.range m).map (fun k => u.getD k 0 * v.getD k 0)).sum := by
  unfold dotQ
  congr 1
  apply List.ext_getElem
  · simp [hu, hv]
  · intro k h1 h2
    have hku : k < u.length := by simp [hu, hv] at h1; omega
    have hkv : k < v.length := by simp [hu, hv] at h1; omega
    simp only [List.getElem_zipWith, List.getElem_map, List.getElem_range]
    rw [List.getD_eq_getElem u 0 hku, List.getD_eq_getElem v 0 hkv]

theorem dot_ent (A B : List (List ℚ)) (a b m : Nat) (hA : A.length = m) (hB : B.length = m) :
    dotQ (A.map (fun r => r.getD a 0)) (B.map (fun r => r.getD b 0)) =
      ((List.range m).map (fun i => (A.getD i []).getD a 0 * (B.getD i []).getD b 0)).sum := by
  rw [dotQ_eq_range _ _ m (by simp [hA]) (by simp [hB])]
  congr 1
  apply List.map_congr_left
  intro i hi
  have hiA : i < A.length := by rw [hA]; exact List.mem_range.mp hi
  have hiB : i < B.length := by rw [hB]; exact List.mem_range.mp hi
  rw [getD_map_of_lt _ A i hiA 0 [], getD_map_of_lt _ B i hiB 0 []]

theorem getD_mapIdx_of_lt {α β : Type} (f : Nat → α → β) (l : List α) (i : Nat)
    (hi : i < l.length) (d : β) (d' : α) : (l.mapIdx f).getD i d = f i (l.getD i d') := by
  rw [List.getD_eq_getElem _ _ (by simpa using hi), List.getElem_mapIdx,
    List.getD_eq_getElem _ _ hi]

theorem dz2Of_length (probs : List (List ℚ)) (labels : List Nat) (nq : ℚ) :
    (dz2Of probs labels nq).length = probs.length := by
  simp [dz2Of]

theorem dz2Of_ent (probs : List (List ℚ)) (labels : List Nat) (nq : ℚ) (i j : Nat)
    (hi : i < probs.length) (hj : j < (probs.getD i []).length) :
    ((dz2Of probs labels nq).getD i []).getD j 0 = dz2S probs labels nq i j := by
  unfold dz2Of dz2S
  rw [getD_mapIdx_of_lt _ probs i hi [] []]
  rw [getD_mapIdx_of_lt _ (probs.getD i []) j hj 0 0]

/-- Claim C6: `backward` returns exactly the closed-form gradients of the
fused softmax/cross-entropy loss: `dz2 = (probs - onehot(labels)) / n`,
`dW2 = dz2ᵀ·h1`, `db2 = colsum(dz2)`, `dh1 = dz2·W2`,
`dz1 = dh1 ⊙ reluGrad(z1)`, `dW1 = dz1ᵀ·X`, `db1 = colsum(dz1)`. -/
theorem backward_closed_form (X z1 h1 probs : List (List ℚ)) (labels : List Nat)
    (W2 : List (List ℚ))
    (hp : qShape probs X.length 4) (hz : qShape z1 X.length 16)
    (hh1 : h1.length = X.length) (hW2 : W2.length = 4) :
    backward X z1 h1 probs labels W2 =
      ((List.range 16).map (fun a => (List.range 8).map (fun b =>
          dW1S probs W2 z1 X labels (X.length : ℚ) X.length a b)),
       (List.range 16).map (fun b => db1S probs W2 z1 labels (X.length : ℚ) X.length b),
       (List.range 4).map (fun a => (List.range 16).map (fun b =>
          dW2S probs h1 labels (X.length : ℚ) X.length a b)),
       (List.range 4).map (fun j => db2S probs labels (X.length : ℚ) X.length j)) := by
  obtain ⟨hpl, hpr⟩ := hp
  obtain ⟨hzl, hzr⟩ := hz
  have hprowlen : ∀ i, i < X.length → (probs.getD i []).length = 4 := by
    intro i hi
    apply hpr
    rw [List.getD_eq_getElem _ _ (hpl ▸ hi)]
    exact List.getElem_mem _
  have hzrowlen : ∀ i, i < X.length → (z1.getD i []).length = 16 := by
    intro i hi
    apply hzr
    rw [List.getD_eq_getElem _ _ (hzl ▸ hi)]
    exact List.getElem_mem _
  have hdz2len : (dz2Of probs labels (X.length : ℚ)).length = X.length := by
    rw [dz2Of_length, hpl]
  have hdz2ent : ∀ i j, i < X.length → j < 4 →
      ((dz2Of probs labels (X.length : ℚ)).getD i []).getD j 0 =
        dz2S probs labels (X.length : ℚ) i j := by
    intro i j hi hj
    exact dz2Of_ent probs labels _ i j (hpl ▸ hi) (by rw [hprowlen i hi]; exact hj)
  have hdW2 : matMul 16 (matTranspose 4 (dz2Of probs labels (X.length : ℚ))) h1 =
      (List.range 4).map (fun a => (List.range 16).map (fun b =>
        dW2S probs h1 labels (X.length : ℚ) X.length a b)) := by
    unfold matMul matMulT matTranspose
    rw [List.map_map]
    apply List.map_congr_left
    intro a ha
    simp only [Function.comp]
    rw [List.map_map]
    apply List.map_congr_left
    intro b hb
    simp only [Function.comp]
    rw [dot_ent (dz2Of probs labels (X.length : ℚ)) h1 a b X.length hdz2len hh1]
    unfold dW2S
    congr 1
    apply List.map_congr_left
    intro i hi
    rw [hdz2ent i a (List.mem_range.mp hi) (List.mem_range.mp ha)]
  have hdb2 : colSum 4 (dz2Of probs labels (X.length : ℚ)) =
      (List.range 4).map (fun j => db2S probs labels (X.length : ℚ) X.length j) := by
    unfold colSum
    apply List.map_congr_left
    intro j hj
    rw [map_eq_range_map (dz2Of probs labels (X.length : ℚ)) _ X.length hdz2len []]
    unfold db2S
    congr 1
    apply List.map_congr_left
    intro i hi
    rw [hdz2ent i j (List.mem_range.mp hi) (List.mem_range.mp hj)]
  have hdh1 : matMul 16 (dz2Of probs labels (X.length : ℚ)) W2 =
      (List.range X.length).map (fun i => (List.range 16).map (fun b =>
        dh1S probs W2 labels (X.length : ℚ) i b)) := by
    unfold matMul matMulT matTranspose
    rw [map_eq_range_map (dz2Of probs labels (X.length : ℚ)) _ X.length hdz2len []]
    apply List.map_congr_left
    intro i hi
    rw [List.map_map]
    apply List.map_congr_left
    intro b hb
    simp only [Function.comp]
    have hrl : ((dz2Of probs labels (X.length : ℚ)).getD i []).length = 4 := by
      unfold dz2Of
      rw [getD_mapIdx_of_lt _ probs i (hpl ▸ List.mem_range.mp hi) [] []]
      rw [List.length_mapIdx]
      exact hprowlen i (List.mem_range.mp hi)
    rw [dotQ_eq_range _ _ 4 hrl (by simp [hW2])]
    unfold dh1S
    congr 1
    apply List.map_congr_left
    intro a ha
    rw [getD_map_of_lt _ W2 a (hW2 ▸ List.mem_range.mp ha) 0 []]
    rw [hdz2ent i a (List.mem_range.mp hi) (List.mem_range.mp ha)]
  have hdz1 : hadamard (matMul 16 (dz2Of probs labels (X.length : ℚ)) W2) (relu_grad z1) =
      (List.range X.length).map (fun i => (List.range 16).map (fun b =>
        dz1S probs W2 z1 labels (X.length : ℚ) i b)) := by
    unfold hadamard relu_grad
    rw [hdh1, map_eq_range_map z1 _ X.length hzl []]
    rw [zipWith_map_same]
    apply List.map_congr_left
    intro i hi
    rw [map_eq_range_map (z1.getD i []) _ 16 (hzrowlen i (List.mem_range.mp hi)) 0]
    rw [zipWith_map_same]
    rfl
  have hdW1 : matMul 8 (matTranspose 16
      (hadamard (matMul 16 (dz2Of probs labels (X.length : ℚ)) W2) (relu_grad z1))) X =
      (List.range 16).map (fun a => (List.range 8).map (fun b =>
        dW1S probs W2 z1 X labels (X.length : ℚ) X.length a b)) := by
    rw [hdz1]
    unfold matMul matMulT matTranspose
    rw [List.map_map]
    apply List.map_congr_left
    intro a ha
    simp only [Function.comp]
    rw [List.map_map]
    apply List.map_congr_left
    intro b hb
    simp only [Function.comp]
    rw [dot_ent _ X a b X.length (by simp) rfl]
    unfold dW1S
    congr 1
    apply List.map_congr_left
    intro i hi
    rw [getD_range_map X.length _ i (List.mem_range.mp hi) []]
    rw [getD_range_map 16 _ a (List.mem_range.mp ha) 0]
  have hdb1 : colSum 16
      (hadamard (matMul 16 (dz2Of probs labels (X.length : ℚ)) W2) (relu_grad z1)) =
      (List.range 16).map (fun b => db1S probs W2 z1 labels (X.length : ℚ) X.length b) := by
    rw [hdz1]
    unfold colSum
    apply List.map_congr_left
    intro b hb
    rw [map_eq_range_map ((List.range X.length).map _) _ X.length (by simp) []]
    unfold db1S
    congr 1
    apply List.map_congr_left
    intro i hi
    rw [getD_range_map X.length _ i (List.mem_range.mp hi) []]
    rw [getD_range_map 16 _ b (List.mem_range.mp hb) 0]
  unfold backward
  rw [hdW1, hdb1, hdW2, hdb2]

/-- Claim C6 witness on a concrete one-sample batch. -/
theorem backward_closed_form_witness :
    (qShape [[(1:ℚ), 0, 0, 0]] ([[(1:ℚ), 0, 0, 0, 0, 0, 0, 0]].length) 4 ∧
     qShape [List.replicate 16 (1:ℚ)] ([[(1:ℚ), 0, 0, 0, 0, 0, 0, 0]].length) 16 ∧
     [List.replicate 16 (1:ℚ)].length = [[(1:ℚ), 0, 0, 0, 0, 0, 0, 0]].length ∧
     (List.replicate 4 (List.replicate 16 (0:ℚ))).length = 4) ∧
    backward [[(1:ℚ), 0, 0, 0, 0, 0, 0, 0]] [List.replicate 16 (1:ℚ)]
        [List.replicate 16 (1:ℚ)] [[(1:ℚ), 0, 0, 0]] [0]
        (List.replicate 4 (List.replicate 16 (0:ℚ))) =
      ((List.range 16).map (fun a => (List.range 8).map (fun b =>
          dW1S [[(1:ℚ), 0, 0, 0]] (List.replicate 4 (List.replicate 16 (0:ℚ)))
            [List.replicate 16 (1:ℚ)] [[(1:ℚ), 0, 0, 0, 0, 0, 0, 0]] [0]
            ([[(1:ℚ), 0, 0, 0, 0, 0, 0, 0]].length : ℚ)
            ([[(1:ℚ), 0, 0, 0, 0, 0, 0, 0]].length) a b)),
       (List.range 16).map (fun b =>
          db1S [[(1:ℚ), 0, 0, 0]] (List.replicate 4 (List.replicate 16 (0:ℚ)))
            [List.replicate 16 (1:ℚ)] [0]
            ([[(1:ℚ), 0, 0, 0, 0, 0, 0, 0]].length : ℚ)
            ([[(1:ℚ), 0, 0, 0, 0, 0, 0, 0]].length) b),
       (List.range 4).map (fun a => (List.range 16).map (fun b =>
          dW2S [[(1:ℚ), 0, 0, 0]] [List.replicate 16 (1:ℚ)] [0]
            ([[(1:ℚ), 0, 0, 0, 0, 0, 0, 0]].length : ℚ)
            ([[(1:ℚ), 0, 0, 0, 0, 0, 0, 0]].length) a b)),
       (List.range 4).map (fun j =>
          db2S [[(1:ℚ), 0, 0, 0]] [0]
            ([[(1:ℚ), 0, 0, 0, 0, 0, 0, 0]].length : ℚ)
            ([[(1:ℚ), 0, 0, 0, 0, 0, 0, 0]].length) j)) :=
  ⟨⟨by decide, by decide, by decide, by decide⟩,
    backward_closed_form [[(1:ℚ), 0, 0, 0, 0, 0, 0, 0]] [List.replicate 16 (1:ℚ)]
      [List.replicate 16 (1:ℚ)] [[(1:ℚ), 0, 0, 0]] [0]
      (List.replicate 4 (List.replicate 16 (0:ℚ)))
      (by decide) (by decide) (by decide) (by decide)⟩

/-! ### `forward` and `train` -/

/-- Model parameters: W1 (16,8), b1 (16,), W2 (4,16), b2 (4,). -/
structure Params where
  W1 : List (List ℚ)
  b1 : List ℚ
  W2 : List (List ℚ)
  b2 : List ℚ
deriving DecidableEq

/-- `np.maximum(0, x)` element-wise. -/
def relu (A : List (List ℚ)) : List (List ℚ) :=
  A.map (fun row => row.map (fun x => max 0 x))

/-- Broadcast row-vector addition, `A + b`. -/
def addRowVec (A : List (List ℚ)) (b : List ℚ) : List (List ℚ) :=
  A.map (fun row => List.zipWith (· + ·) row b)

/-- Numerically stable softmax (lines 241-244): subtract the row max, apply
`np.exp` — external numpy code, abstracted as `expF` — and normalize. -/
def softmax (expF : ℚ → ℚ) (logits : List (List ℚ)) : List (List ℚ) :=
  logits.map (fun row =>
    (row.map (fun v => expF (v - listMax row))).map (fun e =>
      e / (row.map (fun v => expF (v - listMax row))).sum))

/-- `z1 = X @ W1.T + b1` (line 275). -/
def fwd_z1 (X : List (List ℚ)) (p : Params) : List (List ℚ) :=
  addRowVec (matMulT X p.W1) p.b1

/-- `h1 = relu(z1)` (line 276). -/
def fwd_h1 (X : List (List ℚ)) (p : Params) : List (List ℚ) :=
  relu (fwd_z1 X p)

/-- `z2 = h1 @ W2.T + b2` (line 277). -/
def fwd_z2 (X : List (List ℚ)) (p : Params) : List (List ℚ) :=
  addRowVec (matMulT (fwd_h1 X p) p.W2) p.b2

/-- `probs = softmax(z2)` (line 278). -/
def fwd_probs (expF : ℚ → ℚ) (X : List (List ℚ)) (p : Params) : List (List ℚ) :=
  softmax expF (fwd_z2 X p)

/-- Model of `forward` (lines 262-279). -/
def forward (expF : ℚ → ℚ) (X : List (List ℚ)) (p : Params) :
    List (List ℚ) × List (List ℚ) × List (List ℚ) × List (List ℚ) :=
  (fwd_z1 X p, fwd_h1 X p, fwd_z2 X p, fwd_probs expF X p)

def matSub (A B : List (List ℚ)) : List (List ℚ) :=
  List.zipWith (List.zipWith (· - ·)) A B

def vecSub (u v : List ℚ) : List ℚ := List.zipWith (· - ·) u v

def matScale (c : ℚ) (A : List (List ℚ)) : List (List ℚ) :=
  A.map (fun row => row.map (fun x => c * x))

def vecScale (c : ℚ) (v : List ℚ) : List ℚ := v.map (fun x => c * x)

/-- `param -= lr * grad` for all four tensors (lines 375-378). -/
def applyGrads (p : Params) (lr : ℚ)
    (g : List (List ℚ) × List ℚ × List (List ℚ) × List ℚ) : Params :=
  ⟨matSub p.W1 (matScale lr g.1), vecSub p.b1 (vecScale lr g.2.1),
   matSub p.W2 (matScale lr g.2.2.1), vecSub p.b2 (vecScale lr g.2.2.2)⟩

/-- `range(0, n, batch_size)` (line 363); step 0 would raise in Python. -/
def batchStarts (n bs : Nat) : List Nat :=
  if bs = 0 then [] else (List.range ((n + bs - 1) / bs)).map (fun i => i * bs)

/-- Python slice `l[s:e]`. -/
def sliceRows {α : Type} (l : List α) (s e : Nat) : List α := (l.drop s).take (e - s)

/-- One mini-batch: slice, forward, backward, SGD update (lines 363-378). -/
def batchStep (expF : ℚ → ℚ) (Xs : List (List ℚ)) (ys : List Nat) (bs : Nat) (lr : ℚ)
    (p : Params) (start : Nat) : Params :=
  applyGrads p lr
    (backward (sliceRows Xs start (min (start + bs) Xs.length))
      (fwd_z1 (sliceRows Xs start (min (start + bs) Xs.length)) p)
      (fwd_h1 (sliceRows Xs start (min (start + bs) Xs.length)) p)
      (fwd_probs expF (sliceRows Xs start (min (start + bs) Xs.length)) p)
      (sliceRows ys start (min (start + bs) Xs.length))
      p.W2)

/-- One epoch acting on `(rng, params, lr)`: reshuffle via the seeded
generator, fold the batches, decay the learning rate (lines 354-381). -/
def epochStep (expF : ℚ → ℚ) (Xtr : List (List ℚ)) (ytr : List Nat) (bs : Nat)
    (lrDecay : ℚ) (st : RandomState × Params × ℚ) : RandomState × Params × ℚ :=
  ((permutation Xtr.length st.1).2,
   (batchStarts Xtr.length bs).foldl
     (batchStep expF
       ((permutation Xtr.length st.1).1.map (fun i => Xtr.getD i []))
       ((permutation Xtr.length st.1).1.map (fun i => ytr.getD i 0)) bs st.2.2)
     st.2.1,
   st.2.2 * lrDecay)

/-- `np.argmax(probs, axis=1)` (line 385). -/
def predsOf (expF : ℚ → ℚ) (X : List (List ℚ)) (p : Params) : List Nat :=
  (fwd_probs expF X p).map argmaxIdx

/-- `np.mean(val_preds == y_val)` (line 386). -/
def valAcc (expF : ℚ → ℚ) (Xval : List (List ℚ)) (yval : List Nat) (p : Params) : ℚ :=
  (List.zipWith (fun a b => if a = b then (1:ℚ) else 0) (predsOf expF Xval p) yval).sum /
    (yval.length : ℚ)

/-- Draws standing in for `rng.randn`; the Gaussian variates are external
numpy code, so only their determinism from the generator state is modelled. -/
def randnList : Nat → RandomState → List ℚ × RandomState
  | 0, r => ([], r)
  | n + 1, r =>
    ((2 * (nextUnit r).1 - 1) :: (randnList n (nextUnit r).2).1,
     (randnList n (nextUnit r).2).2)

def randnMat : Nat → Nat → RandomState → List (List ℚ) × RandomState
  | 0, _, r => ([], r)
  | k + 1, cols, r =>
    ((randnList cols r).1 :: (randnMat k cols (randnList cols r).2).1,
     (randnMat k cols (randnList cols r).2).2)

/-- `np.sqrt(2.0 / 8)`: exact in float64. -/
def sqrt_2_over_8 : ℚ := 1 / 2

/-- `np.sqrt(2.0 / 16)` as its float64 value. -/
def sqrt_2_over_16 : ℚ := 6369051672525773 / 18014398509481984

/-- Xavier-style initialization (lines 340-344): seeded randn draws scaled
per layer, zero biases. -/
def initParams (seed : Nat) : Params × RandomState :=
  (⟨matScale sqrt_2_over_8 (randnMat 16 8 (mkRandomState seed)).1,
    List.replicate 16 0,
    matScale sqrt_2_over_16 (randnMat 4 16 (randnMat 16 8 (mkRandomState seed)).2).1,
    List.replicate 4 0⟩,
   (randnMat 4 16 (randnMat 16 8 (mkRandomState seed)).2).2)

/-- The epoch loop with best-checkpoint tracking (lines 354-400): after each
epoch, replace the best snapshot only on strict improvement of validation
accuracy; return the best snapshot. -/
def trainLoop (expF : ℚ → ℚ) (Xtr : List (List ℚ)) (ytr : List Nat)
    (Xval : List (List ℚ)) (yval : List Nat) (bs : Nat) (lrDecay : ℚ) :
    Nat → RandomState × Params × ℚ → ℚ → Params → Params
  | 0, _, _, bestP => bestP
  | k + 1, st, bestAcc, bestP =>
    if bestAcc < valAcc expF Xval yval (epochStep expF Xtr ytr bs lrDecay st).2.1 then
      trainLoop expF Xtr ytr Xval yval bs lrDecay k (epochStep expF Xtr ytr bs lrDecay st)
        (valAcc expF Xval yval (epochStep expF Xtr ytr bs lrDecay st).2.1)
        (epochStep expF Xtr ytr bs lrDecay st).2.1
    else
      trainLoop expF Xtr ytr Xval yval bs lrDecay k (epochStep expF Xtr ytr bs lrDecay st)
        bestAcc bestP

/-- Model of `train` (lines 331-400): seeded init, `best_val_acc = 0.0`,
`best_params` initialized to a copy of the initial parameters. -/
def train (expF : ℚ → ℚ) (Xtr : List (List ℚ)) (ytr : List Nat)
    (Xval : List (List ℚ)) (yval : List Nat) (epochs bs : Nat) (lr0 lrDecay : ℚ)
    (seed : Nat) : Params :=
  trainLoop expF Xtr ytr Xval yval bs lrDecay epochs
    ((initParams seed).2, (initParams seed).1, lr0) 0 (initParams seed).1

/-- The `(rng, params, lr)` trajectory after `k` epochs, without checkpoint
tracking. -/
def coreAfter (expF : ℚ → ℚ) (Xtr : List (List ℚ)) (ytr : List Nat) (bs : Nat)
    (lrDecay lr0 : ℚ) (seed : Nat) : Nat → RandomState × Params × ℚ
  | 0 => ((initParams seed).2, (initParams seed).1, lr0)
  | k + 1 => epochStep expF Xtr ytr bs lrDecay (coreAfter expF Xtr ytr bs lrDecay lr0 seed k)

/-- Validation accuracy observed at the end of epoch `k` (0-based). -/
def accAfter (expF : ℚ → ℚ) (Xtr : List (List ℚ)) (ytr : List Nat)
    (Xval : List (List ℚ)) (yval : List Nat) (bs : Nat) (lrDecay lr0 : ℚ) (seed : Nat)
    (k : Nat) : ℚ :=
  valAcc expF Xval yval (coreAfter expF Xtr ytr bs lrDecay lr0 seed (k + 1)).2.1

/-- First index of a list satisfying a predicate. -/
def findIdxQ (p : ℚ → Bool) : List ℚ → Option Nat
  | [] => none
  | a :: l => if p a then some 0 else (findIdxQ p l).map (fun i => i + 1)

/-- The epoch whose snapshot the checkpoint logic keeps: the first index
attaining the running maximum of the accuracies, provided that maximum
strictly exceeds the initial best `b`; `none` when no epoch ever strictly
improves on `b`. -/
def firstImproveIdx (xs : List ℚ) (b : ℚ) : Option Nat :=
  if b < xs.foldl max b then findIdxQ (fun a => decide (xs.foldl max b ≤ a)) xs else none

/-- The checkpoint logic of the loop, on a precomputed `(accuracy, params)`
trace. -/
def checkpointFold : List (ℚ × Params) → ℚ → Params → Params
  | [], _, p => p
  | (a, q) :: rest, b, p =>
    if b < a then checkpointFold rest a q else checkpointFold rest b p

/-- The `(accuracy, params)` trace of the next `k` epochs from state `st`. -/
def epochTrace (expF : ℚ → ℚ) (Xtr : List (List ℚ)) (ytr : List Nat)
    (Xval : List (List ℚ)) (yval : List Nat) (bs : Nat) (lrDecay : ℚ) :
    Nat → RandomState × Params × ℚ → List (ℚ × Params)
  | 0, _ => []
  | k + 1, st =>
    (valAcc expF Xval yval (epochStep expF Xtr ytr bs lrDecay st).2.1,
      (epochStep expF Xtr ytr bs lrDecay st).2.1) ::
    epochTrace expF Xtr ytr Xval yval bs lrDecay k (epochStep expF Xtr ytr bs lrDecay st)

theorem le_foldl_max (l : List ℚ) (b : ℚ) : b ≤ l.foldl max b := by
  induction l generalizing b with
  | nil => exact le_refl b
  | cons x t ih => exact le_trans (le_max_left b x) (ih (max b x))

theorem findIdxQ_some_lt (p : ℚ → Bool) (l : List ℚ) (i : Nat)
    (h : findIdxQ p l = some i) : i < l.length := by
  induction l generalizing i with
  | nil => simp [findIdxQ] at h
  | cons a t ih =>
    unfold findIdxQ at h
    by_cases hp : p a
    · rw [if_pos hp] at h
      injection h with h'
      simp [← h']
    · rw [if_neg hp] at h
      cases hfi : findIdxQ p t with
      | none => rw [hfi] at h; exact Option.noConfusion h
      | some j =>
        rw [hfi] at h
        injection h with h'
        have h2 : j + 1 = i := h'
        have := ih j hfi
        simp only [List.length_cons]
        omega

theorem findIdxQ_cons (p : ℚ → Bool) (a : ℚ) (l : List ℚ) :
    findIdxQ p (a :: l) = if p a then some 0 else (findIdxQ p l).map (fun i => i + 1) := rfl

theorem firstImproveIdx_def (xs : List ℚ) (b : ℚ) :
    firstImproveIdx xs b =
      if b < xs.foldl max b then findIdxQ (fun a => decide (xs.foldl max b ≤ a)) xs
      else none := rfl

theorem findIdxQ_foldl_max_isSome (l : List ℚ) (b : ℚ) (h : b < l.foldl max b) :
    (findIdxQ (fun v => decide (l.foldl max b ≤ v)) l).isSome = true := by
  induction l generalizing b with
  | nil => exact absurd h (lt_irrefl b)
  | cons x t ih =>
    have hfold : (x :: t).foldl max b = t.foldl max (max b x) := rfl
    rw [findIdxQ_cons]
    by_cases hx : (x :: t).foldl max b ≤ x
    · rw [if_pos (by simpa using hx)]
      rfl
    · have hxlt : x < (x :: t).foldl max b := not_le.mp hx
      have hmx : max b x < t.foldl max (max b x) := by
        rw [hfold] at h hxlt
        exact max_lt h hxlt
      have hsome := ih (max b x) hmx
      rw [if_neg (by simpa using hx)]
      simp only [hfold]
      cases hfi : findIdxQ (fun v => decide (t.foldl max (max b x) ≤ v)) t with
      | none => rw [hfi] at hsome; simp at hsome
      | some j => rfl

theorem getD_default_irrel {α : Type} (l : List α) (i : Nat) (hi : i < l.length)
    (d1 d2 : α) : l.getD i d1 = l.getD i d2 := by
  rw [List.getD_eq_getElem _ _ hi, List.getD_eq_getElem _ _ hi]

/-- The loop's checkpoint logic keeps exactly the first trace entry attaining
the running maximum, provided that maximum strictly beats the incoming best;
otherwise it keeps the incoming snapshot. -/
theorem checkpointFold_spec (l : List (ℚ × Params)) (b : ℚ) (p : Params) :
    checkpointFold l b p =
      match firstImproveIdx (l.map Prod.fst) b with
      | none => p
      | some i => (l.getD i (0, p)).2 := by
  induction l generalizing b p with
  | nil => simp [checkpointFold, firstImproveIdx, findIdxQ]
  | cons aq rest ih =>
    obtain ⟨a, q⟩ := aq
    show (if b < a then checkpointFold rest a q else checkpointFold rest b p) = _
    simp only [List.map_cons]
    by_cases hba : b < a
    · rw [if_pos hba, ih a q]
      have hM : (a :: rest.map Prod.fst).foldl max b = (rest.map Prod.fst).foldl max a := by
        show (rest.map Prod.fst).foldl max (max b a) = _
        rw [max_eq_right hba.le]
      have haMa : a ≤ (rest.map Prod.fst).foldl max a := le_foldl_max _ a
      have hbM : b < (a :: rest.map Prod.fst).foldl max b := by
        rw [hM]; exact lt_of_lt_of_le hba haMa
      rw [firstImproveIdx_def, firstImproveIdx_def, if_pos hbM]
      simp only [hM]
      rw [findIdxQ_cons]
      by_cases haM : a < (rest.map Prod.fst).foldl max a
      · rw [if_pos haM, if_neg (by simpa using not_le.mpr haM)]
        cases hfi : findIdxQ
            (fun v => decide ((rest.map Prod.fst).foldl max a ≤ v)) (rest.map Prod.fst) with
        | none =>
          exfalso
          have hsome := findIdxQ_foldl_max_isSome (rest.map Prod.fst) a haM
          rw [hfi] at hsome
          simp at hsome
        | some j =>
          show (rest.getD j (0, q)).2 = (((a, q) :: rest).getD (j + 1) (0, p)).2
          have hj : j < rest.length := by simpa using findIdxQ_some_lt _ _ j hfi
          rw [List.getD_cons_succ, getD_default_irrel rest j hj (0, q) (0, p)]
      · rw [if_neg haM]
        have haEq : (rest.map Prod.fst).foldl max a = a := le_antisymm (not_lt.mp haM) haMa
        rw [if_pos (by simp [haEq])]
        rfl
    · rw [if_neg hba, ih b p]
      have hab : a ≤ b := not_lt.mp hba
      have hM : (a :: rest.map Prod.fst).foldl max b = (rest.map Prod.fst).foldl max b := by
        show (rest.map Prod.fst).foldl max (max b a) = _
        rw [max_eq_left hab]
      rw [firstImproveIdx_def, firstImproveIdx_def]
      simp only [hM]
      by_cases hbM : b < (rest.map Prod.fst).foldl max b
      · rw [if_pos hbM, if_pos hbM, findIdxQ_cons]
        have hpa : ¬ (rest.map Prod.fst).foldl max b ≤ a := by
          intro hle
          exact absurd (lt_of_lt_of_le hbM hle) (not_lt.mpr hab)
        rw [if_neg (by simpa using hpa)]
        cases hfi : findIdxQ
            (fun v => decide ((rest.map Prod.fst).foldl max b ≤ v)) (rest.map Prod.fst) with
        | none => rfl
        | some j =>
          show (rest.getD j (0, p)).2 = (((a, q) :: rest).getD (j + 1) (0, p)).2
          rw [List.getD_cons_succ]
      · rw [if_neg hbM, if_neg hbM]

/-- The stateful epoch loop with checkpointing equals the checkpoint logic
run over the precomputed trace. -/
theorem trainLoop_eq_checkpointFold (expF : ℚ → ℚ) (Xtr : List (List ℚ)) (ytr : List Nat)
    (Xval : List (List ℚ)) (yval : List Nat) (bs : Nat) (lrDecay : ℚ) :
    ∀ (k : Nat) (st : RandomState × Params × ℚ) (b : ℚ) (p : Params),
    trainLoop expF Xtr ytr Xval yval bs lrDecay k st b p =
      checkpointFold (epochTrace expF Xtr ytr Xval yval bs lrDecay k st) b p := by
  intro k
  induction k with
  | zero => intro st b p; rfl
  | succ k' ih =>
    intro st b p
    simp only [trainLoop, epochTrace, checkpointFold]
    by_cases h : b < valAcc expF Xval yval (epochStep expF Xtr ytr bs lrDecay st).2.1
    · rw [if_pos h, if_pos h, ih]
    · rw [if_neg h, if_neg h, ih]

/-- The trace from epoch `j` lists the per-epoch accuracies and snapshots. -/
theorem epochTrace_coreAfter (expF : ℚ → ℚ) (Xtr : List (List ℚ)) (ytr : List Nat)
    (Xval : List (List ℚ)) (yval : List Nat) (bs : Nat) (lrDecay lr0 : ℚ) (seed : Nat) :
    ∀ (k j : Nat),
    epochTrace expF Xtr ytr Xval yval bs lrDecay k
        (coreAfter expF Xtr ytr bs lrDecay lr0 seed j) =
      (List.range k).map (fun t =>
        (accAfter expF Xtr ytr Xval yval bs lrDecay lr0 seed (j + t),
         (coreAfter expF Xtr ytr bs lrDecay lr0 seed (j + t + 1)).2.1)) := by
  intro k
  induction k with
  | zero => intro j; rfl
  | succ k' ih =>
    intro j
    have hstep : epochStep expF Xtr ytr bs lrDecay
        (coreAfter expF Xtr ytr bs lrDecay lr0 seed j) =
        coreAfter expF Xtr ytr bs lrDecay lr0 seed (j + 1) := rfl
    simp only [epochTrace]
    rw [hstep, ih (j + 1), List.range_succ_eq_map]
    simp only [List.map_cons, List.map_map]
    refine congrArg₂ List.cons ?_ ?_
    · simp [accAfter]
    · apply List.map_congr_left
      intro t ht
      simp only [Function.comp, Nat.succ_eq_add_one]
      rw [show j + 1 + t = j + (t + 1) from by omega]

/-- Claim C7: the best-checkpoint snapshot is replaced exactly when an
epoch's validation accuracy strictly exceeds the best seen so far (ties never
replace), and `train` returns the value snapshot of the epoch of the last
strict improvement — the first epoch attaining the running maximum of the
accuracies — unaffected by the later epochs' parameter mutations; when no
epoch strictly improves on the initial best of 0, the initial parameters are
returned. -/
theorem train_returns_best (expF : ℚ → ℚ) (Xtr : List (List ℚ)) (ytr : List Nat)
    (Xval : List (List ℚ)) (yval : List Nat) (epochs bs : Nat) (lr0 lrDecay : ℚ)
    (seed : Nat) :
    train expF Xtr ytr Xval yval epochs bs lr0 lrDecay seed =
      match firstImproveIdx ((List.range epochs).map
          (accAfter expF Xtr ytr Xval yval bs lrDecay lr0 seed)) 0 with
      | none => (initParams seed).1
      | some k => (coreAfter expF Xtr ytr bs lrDecay lr0 seed (k + 1)).2.1 := by
  have h0 : ((initParams seed).2, (initParams seed).1, lr0) =
      coreAfter expF Xtr ytr bs lrDecay lr0 seed 0 := rfl
  unfold train
  rw [h0, trainLoop_eq_checkpointFold expF Xtr ytr Xval yval bs lrDecay epochs,
    epochTrace_coreAfter expF Xtr ytr Xval yval bs lrDecay lr0 seed epochs 0,
    checkpointFold_spec]
  have hfst : (((List.range epochs).map (fun t =>
      (accAfter expF Xtr ytr Xval yval bs lrDecay lr0 seed (0 + t),
       (coreAfter expF Xtr ytr bs lrDecay lr0 seed (0 + t + 1)).2.1))).map Prod.fst) =
      (List.range epochs).map (accAfter expF Xtr ytr Xval yval bs lrDecay lr0 seed) := by
    rw [List.map_map]
    apply List.map_congr_left
    intro t ht
    simp [Function.comp]
  rw [hfst]
  cases hfi : firstImproveIdx ((List.range epochs).map
      (accAfter expF Xtr ytr Xval yval bs lrDecay lr0 seed)) 0 with
  | none => rfl
  | some k =>
    have hk : k < epochs := by
      unfold firstImproveIdx at hfi
      by_cases hc : (0:ℚ) < ((List.range epochs).map
          (accAfter expF Xtr ytr Xval yval bs lrDecay lr0 seed)).foldl max 0
      · rw [if_pos hc] at hfi
        have := findIdxQ_some_lt _ _ k hfi
        simpa using this
      · rw [if_neg hc] at hfi
        cases hfi
    show ((List.map (fun t =>
        (accAfter expF Xtr ytr Xval yval bs lrDecay lr0 seed (0 + t),
         (coreAfter expF Xtr ytr bs lrDecay lr0 seed (0 + t + 1)).2.1))
        (List.range epochs)).getD k (0, (initParams seed).1)).2 =
      (coreAfter expF Xtr ytr bs lrDecay lr0 seed (k + 1)).2.1
    rw [getD_range_map epochs _ k hk (0, (initParams seed).1)]
    simp

end SenseEdge
